import Mathlib

/-!
Verification of the resource-economy core of the incremental terminal game.

The Python modules `src/game/resources.py`, `src/engine/buildings.py`,
`src/game/units.py`, `src/game/upgrades.py` and `src/game/game_state.py`
are shallowly embedded below.  Python `float` amounts are modelled as
rational numbers, Python `dict`s keyed by name as lists (in insertion
order) of entries; every mutating method becomes a function from the old
manager state to the new one together with the method's return value.
-/

namespace IncrGame

/-- A resource entry, mirroring the `Resource` dataclass of
`src/game/resources.py` (the free-form `metadata` dict is omitted). -/
structure Resource where
  name : String
  amount : ℚ
  max_storage : Option ℚ
  generation_rate : ℚ
  display_name : String
  description : String
  unlocked : Bool
  deriving Repr, DecidableEq

/-- The `ResourceManager.resources` dict: resources in insertion order,
keyed by their `name` field. -/
abbrev Ledger := List Resource

/-- `ResourceManager.get_resource`: dict lookup by name. -/
def getResource (rm : Ledger) (name : String) : Option Resource :=
  rm.find? (fun r => r.name == name)

/-- In-place mutation of the resource object stored under `name`. -/
def updateResource (rm : Ledger) (name : String) (f : Resource → Resource) : Ledger :=
  rm.map (fun r => if r.name == name then f r else r)

/-- `ResourceManager.has_resource`. -/
def has_resource (rm : Ledger) (name : String) : Bool :=
  (getResource rm name).isSome

/-- `ResourceManager.get_amount`: amount of the resource, `0` if unknown. -/
def get_amount (rm : Ledger) (name : String) : ℚ :=
  match getResource rm name with
  | some r => r.amount
  | none => 0

/-- `ResourceManager.set_amount`: write directly, clamp to `max_storage`
when `clamp`, then clamp below at `0`; fail on an unknown name. -/
def set_amount (rm : Ledger) (name : String) (amount : ℚ) (clamp : Bool) : Ledger × Bool :=
  match getResource rm name with
  | none => (rm, false)
  | some _ =>
    (updateResource rm name (fun r =>
      let a1 := match r.max_storage with
        | some m => if clamp then min amount m else amount
        | none => amount
      { r with amount := max 0 a1 }), true)

/-- The amount of a resource after `ResourceManager.add`: increased, then
clamped at `max_storage` (there is no lower clamp in the source). -/
def addClamp (r : Resource) (amount : ℚ) : ℚ :=
  match r.max_storage with
  | some m => min (r.amount + amount) m
  | none => r.amount + amount

/-- `ResourceManager.add`: increase the amount, clamped at `max_storage`;
returns the amount actually applied, `0` for an unknown name. -/
def add (rm : Ledger) (name : String) (amount : ℚ) : Ledger × ℚ :=
  match getResource rm name with
  | none => (rm, 0)
  | some r =>
    (updateResource rm name (fun x => { x with amount := addClamp x amount }),
     addClamp r amount - r.amount)

/-- `ResourceManager.spend`: fail without mutation when the current amount
is below the request, otherwise decrement. -/
def spend (rm : Ledger) (name : String) (amount : ℚ) : Ledger × Bool :=
  match getResource rm name with
  | none => (rm, false)
  | some r =>
    if r.amount < amount then (rm, false)
    else (updateResource rm name (fun x => { x with amount := x.amount - amount }), true)

/-- A cost mapping `{resource_name: amount}`, as a key-value list. -/
abbrev CostMap := List (String × ℚ)

/-- `ResourceManager.can_afford`: every entry of `costs` is affordable. -/
def can_afford (rm : Ledger) (costs : CostMap) : Bool :=
  costs.all (fun c => !(decide (get_amount rm c.1 < c.2)))

/-- `ResourceManager.spend_multiple`: check `can_afford` for the whole
mapping first, then spend every entry. -/
def spend_multiple (rm : Ledger) (costs : CostMap) : Ledger × Bool :=
  if can_afford rm costs then
    (costs.foldl (fun acc c => (spend acc c.1 c.2).1) rm, true)
  else (rm, false)

/-- `ResourceManager.generate`: for every resource with positive
`generation_rate`, add `rate * delta_time`. -/
def generate (rm : Ledger) (delta_time : ℚ) : Ledger :=
  rm.foldl (fun acc r =>
    if r.generation_rate > 0 then (add acc r.name (r.generation_rate * delta_time)).1
    else acc) rm

/-- `ResourceManager.set_generation_rate`: clamp the new rate below at 0;
no-op on an unknown name. -/
def set_generation_rate (rm : Ledger) (name : String) (rate : ℚ) : Ledger :=
  match getResource rm name with
  | none => rm
  | some _ => updateResource rm name (fun x => { x with generation_rate := max 0 rate })

/-- `ResourceManager.modify_generation_rate`: add `modifier` to the
current rate (through `set_generation_rate`). -/
def modify_generation_rate (rm : Ledger) (name : String) (modifier : ℚ) : Ledger :=
  match getResource rm name with
  | none => rm
  | some r => set_generation_rate rm name (r.generation_rate + modifier)

/-- Generation rate of a resource, `0` if unknown (query helper). -/
def getGenRate (rm : Ledger) (name : String) : ℚ :=
  match getResource rm name with
  | some r => r.generation_rate
  | none => 0

theorem getResource_updateResource (rm : Ledger) (n m : String) (f : Resource → Resource)
    (hf : ∀ x, (f x).name = x.name) :
    getResource (updateResource rm n f) m =
      if m = n then (getResource rm m).map f else getResource rm m := by
  induction rm with
  | nil => by_cases h : m = n <;> simp [getResource, updateResource, h]
  | cons r rs ih =>
    show getResource ((if r.name == n then f r else r) :: updateResource rs n f) m = _
    by_cases hrn : r.name = n
    · rw [if_pos (by simpa using hrn)]
      by_cases hmn : m = n
      · subst hmn
        unfold getResource
        rw [List.find?_cons_of_pos _ (by simp [hf r, hrn]),
            List.find?_cons_of_pos _ (by simp [hrn]), if_pos rfl]
        rfl
      · unfold getResource
        rw [List.find?_cons_of_neg _ (by simp [hf r, hrn]; exact fun h => hmn h.symm),
            if_neg hmn, List.find?_cons_of_neg _ (by simp [hrn]; exact fun h => hmn h.symm)]
        have h2 := ih
        rw [if_neg hmn] at h2
        exact h2
    · rw [if_neg (by simpa using hrn)]
      by_cases hrm : r.name = m
      · have hmn : ¬ m = n := fun h => hrn (hrm.trans h)
        unfold getResource
        rw [List.find?_cons_of_pos _ (by simp [hrm]), if_neg hmn,
            List.find?_cons_of_pos _ (by simp [hrm])]
      · unfold getResource
        rw [List.find?_cons_of_neg _ (by simp [hrm]),
            List.find?_cons_of_neg _ (by simp [hrm])]
        exact ih

theorem getResource_updateResource_self (rm : Ledger) (n : String) (f : Resource → Resource)
    (hf : ∀ x, (f x).name = x.name) :
    getResource (updateResource rm n f) n = (getResource rm n).map f := by
  simp [getResource_updateResource rm n n f hf]

theorem getResource_updateResource_other (rm : Ledger) (n m : String) (f : Resource → Resource)
    (hf : ∀ x, (f x).name = x.name) (h : m ≠ n) :
    getResource (updateResource rm n f) m = getResource rm m := by
  simp [getResource_updateResource rm n m f hf, h]

/-- One `spend` call, described through `getResource` at the spent name. -/
theorem getResource_spend_self (rm : Ledger) (n : String) (a : ℚ) :
    getResource (spend rm n a).1 n =
      (getResource rm n).map
        (fun r => if r.amount < a then r else { r with amount := r.amount - a }) := by
  cases h : getResource rm n with
  | none => simp [spend, h]
  | some r =>
    by_cases hlt : r.amount < a
    · simp [spend, h, hlt]
    · simp only [spend, h, hlt, if_false, Option.map_some]
      rw [getResource_updateResource_self rm n
        (fun x => { x with amount := x.amount - a }) (fun x => rfl), h]
      simp [hlt]

/-- `spend` leaves every other name untouched. -/
theorem getResource_spend_other (rm : Ledger) (n m : String) (a : ℚ) (h : m ≠ n) :
    getResource (spend rm n a).1 m = getResource rm m := by
  cases hn : getResource rm n with
  | none => simp [spend, hn]
  | some r =>
    by_cases hlt : r.amount < a
    · simp [spend, hn, hlt]
    · simp only [spend, hn, hlt, if_false]
      exact getResource_updateResource_other rm n m
        (fun x => { x with amount := x.amount - a }) (fun x => rfl) h

/-- One `add` call, described through `getResource` at the target name. -/
theorem getResource_add_self (rm : Ledger) (n : String) (a : ℚ) :
    getResource (add rm n a).1 n =
      (getResource rm n).map (fun r => { r with amount := addClamp r a }) := by
  cases h : getResource rm n with
  | none => simp [add, h]
  | some r =>
    simp only [add, h, Option.map_some]
    rw [getResource_updateResource_self rm n
      (fun x => { x with amount := addClamp x a }) (fun x => rfl), h]

/-- `add` leaves every other name untouched. -/
theorem getResource_add_other (rm : Ledger) (n m : String) (a : ℚ) (h : m ≠ n) :
    getResource (add rm n a).1 m = getResource rm m := by
  cases hn : getResource rm n with
  | none => simp [add, hn]
  | some r =>
    simp only [add, hn]
    exact getResource_updateResource_other rm n m
      (fun x => { x with amount := addClamp x a }) (fun x => rfl) h

/-- Generic description of a left fold of per-name ledger updates over a
key-value list with distinct keys: the entry for each listed name is
transformed exactly once, every other name is untouched. -/
theorem foldl_keyed_lookup
    (step : Ledger → String × ℚ → Ledger)
    (g : String × ℚ → Resource → Resource)
    (hhit : ∀ rm c, getResource (step rm c) c.1 = (getResource rm c.1).map (g c))
    (hmiss : ∀ rm c n, n ≠ c.1 → getResource (step rm c) n = getResource rm n)
    (entries : List (String × ℚ)) (rm : Ledger)
    (hnd : (entries.map Prod.fst).Nodup) :
    (∀ c ∈ entries,
        getResource (entries.foldl step rm) c.1 = (getResource rm c.1).map (g c))
    ∧ ∀ n, n ∉ entries.map Prod.fst →
        getResource (entries.foldl step rm) n = getResource rm n := by
  induction entries generalizing rm with
  | nil => exact ⟨fun c hc => absurd hc (List.not_mem_nil c), fun n _ => rfl⟩
  | cons c cs ih =>
    simp only [List.map_cons, List.nodup_cons] at hnd
    obtain ⟨hc1, hnd2⟩ := hnd
    have ih2 := ih (step rm c) hnd2
    constructor
    · intro d hd
      rcases List.mem_cons.mp hd with rfl | hdcs
      · rw [List.foldl_cons, ih2.2 d.1 hc1]
        exact hhit rm d
      · have hne : d.1 ≠ c.1 := by
          intro h
          exact hc1 (h ▸ List.mem_map_of_mem Prod.fst hdcs)
        rw [List.foldl_cons, ih2.1 d hdcs, hmiss rm c d.1 hne]
    · intro n hn
      simp only [List.map_cons, List.mem_cons, not_or] at hn
      rw [List.foldl_cons, ih2.2 n hn.2, hmiss rm c n hn.1]

theorem get_amount_eq (rm : Ledger) (n : String) (r : Resource)
    (h : getResource rm n = some r) : get_amount rm n = r.amount := by
  simp [get_amount, h]

theorem can_afford_iff (rm : Ledger) (costs : CostMap) :
    can_afford rm costs = true ↔ ∀ c ∈ costs, ¬ get_amount rm c.1 < c.2 := by
  simp [can_afford, List.all_eq_true]

/-- Claim C1: `spend_multiple` (spendAll) is atomic.  If it returns false
the whole ledger is unchanged (so in particular the amount of every
resource named in `costs` is unchanged); if it returns true, every
resource named in `costs` has its amount decreased by exactly the
requested amount, and every name not in `costs` is untouched.  The
hypothesis mirrors the Python `dict`, whose keys are distinct. -/
theorem C1_spend_multiple_atomic (rm : Ledger) (costs : CostMap)
    (hnd : (costs.map Prod.fst).Nodup) :
    ((spend_multiple rm costs).2 = false → (spend_multiple rm costs).1 = rm)
    ∧ ((spend_multiple rm costs).2 = true →
        (∀ c ∈ costs, ∀ r, getResource rm c.1 = some r →
          getResource (spend_multiple rm costs).1 c.1 =
            some { r with amount := r.amount - c.2 })
        ∧ ∀ n, n ∉ costs.map Prod.fst →
            getResource (spend_multiple rm costs).1 n = getResource rm n) := by
  by_cases hca : can_afford rm costs = true
  · have hkl := foldl_keyed_lookup
      (fun acc c => (spend acc c.1 c.2).1)
      (fun c r => if r.amount < c.2 then r else { r with amount := r.amount - c.2 })
      (fun rm c => getResource_spend_self rm c.1 c.2)
      (fun rm c n h => getResource_spend_other rm c.1 n c.2 h)
      costs rm hnd
    simp only [spend_multiple, hca, if_true]
    constructor
    · intro h
      exact absurd h (by simp)
    · intro _
      refine ⟨?_, hkl.2⟩
      intro c hc r hr
      have hcant := (can_afford_iff rm costs).mp hca c hc
      rw [get_amount, hr] at hcant
      have h3 := hkl.1 c hc
      rw [hr] at h3
      simpa [hcant] using h3
  · simp only [spend_multiple, hca, if_false]
    exact ⟨fun _ => rfl, fun h => absurd h (by simp)⟩

theorem C1_spend_multiple_atomic_witness :
    ([("gold", (3 : ℚ)), ("wood", 5)].map Prod.fst).Nodup
    ∧ (((spend_multiple
          [⟨"gold", 10, none, 0, "", "", true⟩, ⟨"wood", 5, some 20, 0, "", "", true⟩]
          [("gold", 3), ("wood", 5)]).2 = false →
        (spend_multiple
          [⟨"gold", 10, none, 0, "", "", true⟩, ⟨"wood", 5, some 20, 0, "", "", true⟩]
          [("gold", 3), ("wood", 5)]).1 =
          [⟨"gold", 10, none, 0, "", "", true⟩, ⟨"wood", 5, some 20, 0, "", "", true⟩])
      ∧ ((spend_multiple
          [⟨"gold", 10, none, 0, "", "", true⟩, ⟨"wood", 5, some 20, 0, "", "", true⟩]
          [("gold", 3), ("wood", 5)]).2 = true →
        (∀ c ∈ [("gold", (3 : ℚ)), ("wood", 5)], ∀ r,
          getResource
            [⟨"gold", 10, none, 0, "", "", true⟩, ⟨"wood", 5, some 20, 0, "", "", true⟩]
            c.1 = some r →
          getResource (spend_multiple
            [⟨"gold", 10, none, 0, "", "", true⟩, ⟨"wood", 5, some 20, 0, "", "", true⟩]
            [("gold", 3), ("wood", 5)]).1 c.1 =
            some { r with amount := r.amount - c.2 })
        ∧ ∀ n, n ∉ [("gold", (3 : ℚ)), ("wood", 5)].map Prod.fst →
            getResource (spend_multiple
              [⟨"gold", 10, none, 0, "", "", true⟩, ⟨"wood", 5, some 20, 0, "", "", true⟩]
              [("gold", 3), ("wood", 5)]).1 n =
            getResource
              [⟨"gold", 10, none, 0, "", "", true⟩, ⟨"wood", 5, some 20, 0, "", "", true⟩]
              n)) :=
  ⟨by decide, C1_spend_multiple_atomic _ _ (by decide)⟩

/-- The four mutating ledger calls of claim C2, with their arguments. -/
inductive ROp where
  | addOp (name : String) (amount : ℚ)
  | spendOp (name : String) (amount : ℚ)
  | setOp (name : String) (amount : ℚ) (clamp : Bool)
  | genOp (delta_time : ℚ)
  deriving Repr, DecidableEq

/-- Apply one ledger call, dropping the returned value. -/
def applyOp (rm : Ledger) : ROp → Ledger
  | .addOp n a => (add rm n a).1
  | .spendOp n a => (spend rm n a).1
  | .setOp n a c => (set_amount rm n a c).1
  | .genOp dt => generate rm dt

/-- Apply a finite sequence of ledger calls. -/
def applyOps (rm : Ledger) (ops : List ROp) : Ledger := ops.foldl applyOp rm

/-- The storage invariant of one resource: amount in `[0, max_storage]`,
with a missing `max_storage` read as no upper bound. -/
def resourceInBounds (r : Resource) : Bool :=
  decide (0 ≤ r.amount) &&
    (match r.max_storage with
     | some m => decide (r.amount ≤ m)
     | none => true)

/-- The storage invariant of the whole ledger. -/
def ledgerInBounds (rm : Ledger) : Bool := rm.all resourceInBounds

/-- The restriction of claim C2's call arguments forced by its
counterexample: nonnegative deltas and clamping writes. -/
def goodOp : ROp → Bool
  | .addOp _ a => decide (0 ≤ a)
  | .spendOp _ a => decide (0 ≤ a)
  | .setOp _ _ clamp => clamp
  | .genOp dt => decide (0 ≤ dt)

theorem resourceInBounds_iff (r : Resource) :
    resourceInBounds r = true ↔
      0 ≤ r.amount ∧ ∀ m, r.max_storage = some m → r.amount ≤ m := by
  cases h : r.max_storage <;> simp [resourceInBounds, h]

theorem ledgerInBounds_iff (rm : Ledger) :
    ledgerInBounds rm = true ↔ ∀ r ∈ rm, resourceInBounds r = true := by
  simp [ledgerInBounds, List.all_eq_true]

theorem names_updateResource (rm : Ledger) (n : String) (f : Resource → Resource)
    (hf : ∀ x, (f x).name = x.name) :
    (updateResource rm n f).map Resource.name = rm.map Resource.name := by
  induction rm with
  | nil => rfl
  | cons r rs ih =>
    have h0 : updateResource (r :: rs) n f =
        (if r.name == n then f r else r) :: updateResource rs n f := rfl
    rw [h0, List.map_cons, List.map_cons, ih]
    congr 1
    by_cases h : (r.name == n) = true <;> simp [h, hf r]

theorem names_add (rm : Ledger) (n : String) (a : ℚ) :
    (add rm n a).1.map Resource.name = rm.map Resource.name := by
  cases h : getResource rm n with
  | none => simp [add, h]
  | some r =>
    simp only [add, h]
    exact names_updateResource rm n _ (fun x => rfl)

theorem names_spend (rm : Ledger) (n : String) (a : ℚ) :
    (spend rm n a).1.map Resource.name = rm.map Resource.name := by
  cases h : getResource rm n with
  | none => simp [spend, h]
  | some r =>
    by_cases hlt : r.amount < a
    · simp [spend, h, hlt]
    · simp only [spend, h, hlt, if_false]
      exact names_updateResource rm n _ (fun x => rfl)

theorem names_set_amount (rm : Ledger) (n : String) (a : ℚ) (c : Bool) :
    (set_amount rm n a c).1.map Resource.name = rm.map Resource.name := by
  cases h : getResource rm n with
  | none => simp [set_amount, h]
  | some r =>
    simp only [set_amount, h]
    exact names_updateResource rm n _ (fun x => rfl)

theorem names_generate_aux (l : List Resource) (dt : ℚ) (acc : Ledger) :
    (l.foldl (fun a r =>
        if r.generation_rate > 0 then (add a r.name (r.generation_rate * dt)).1 else a)
      acc).map Resource.name = acc.map Resource.name := by
  induction l generalizing acc with
  | nil => rfl
  | cons r rs ih =>
    rw [List.foldl_cons, ih]
    by_cases h : r.generation_rate > 0 <;> simp [h, names_add]

theorem names_applyOp (rm : Ledger) (op : ROp) :
    (applyOp rm op).map Resource.name = rm.map Resource.name := by
  cases op with
  | addOp n a => exact names_add rm n a
  | spendOp n a => exact names_spend rm n a
  | setOp n a c => exact names_set_amount rm n a c
  | genOp dt => exact names_generate_aux rm dt rm

/-- With distinct names, the member found by name is the member itself. -/
theorem getResource_eq_of_mem (rm : Ledger) (x : Resource)
    (hnd : (rm.map Resource.name).Nodup) (hx : x ∈ rm) :
    getResource rm x.name = some x := by
  induction rm with
  | nil => cases hx
  | cons r rs ih =>
    simp only [List.map_cons, List.nodup_cons] at hnd
    rcases List.mem_cons.mp hx with rfl | hxs
    · unfold getResource
      rw [List.find?_cons_of_pos _ (by simp)]
    · have hne : x.name ≠ r.name := by
        intro h
        exact hnd.1 (h ▸ List.mem_map_of_mem Resource.name hxs)
      unfold getResource
      rw [List.find?_cons_of_neg _ (by simpa using hne.symm)]
      exact ih hnd.2 hxs

theorem ledgerInBounds_updateResource (rm : Ledger) (n : String) (f : Resource → Resource)
    (hf : ∀ x ∈ rm, resourceInBounds x = true → resourceInBounds (f x) = true)
    (h : ledgerInBounds rm = true) :
    ledgerInBounds (updateResource rm n f) = true := by
  rw [ledgerInBounds_iff] at *
  intro y hy
  rw [updateResource] at hy
  obtain ⟨x, hx, rfl⟩ := List.mem_map.mp hy
  by_cases hxn : (x.name == n) = true
  · simp only [hxn, if_true]
    exact hf x hx (h x hx)
  · simp only [hxn, if_false]
    exact h x hx

theorem ledgerInBounds_updateResource_found (rm : Ledger) (n : String)
    (f : Resource → Resource) (r : Resource)
    (hnd : (rm.map Resource.name).Nodup)
    (hr : getResource rm n = some r)
    (hfr : resourceInBounds (f r) = true)
    (h : ledgerInBounds rm = true) :
    ledgerInBounds (updateResource rm n f) = true := by
  rw [ledgerInBounds_iff] at *
  intro y hy
  rw [updateResource] at hy
  obtain ⟨x, hx, rfl⟩ := List.mem_map.mp hy
  by_cases hxn : (x.name == n) = true
  · have h1 := getResource_eq_of_mem rm x hnd hx
    rw [(by simpa using hxn : x.name = n), hr] at h1
    have hxr : x = r := Option.some.inj h1.symm
    simp only [hxn, if_true]
    exact hxr ▸ hfr
  · simp only [hxn, if_false]
    exact h x hx

theorem resourceInBounds_setField (x : Resource) (v : ℚ) (h0 : 0 ≤ v)
    (hv : ∀ m, x.max_storage = some m → v ≤ m) :
    resourceInBounds { x with amount := v } = true := by
  rw [resourceInBounds_iff]
  exact ⟨h0, fun m hm => hv m hm⟩

theorem addClamp_nonneg (x : Resource) (a : ℚ) (ha : 0 ≤ a) (h0 : 0 ≤ x.amount)
    (hm : ∀ m, x.max_storage = some m → x.amount ≤ m) : 0 ≤ addClamp x a := by
  unfold addClamp
  cases hms : x.max_storage with
  | none => exact add_nonneg h0 ha
  | some m => exact le_min (add_nonneg h0 ha) (le_trans h0 (hm m hms))

theorem addClamp_le (x : Resource) (a : ℚ) (m : ℚ) (hms : x.max_storage = some m) :
    addClamp x a ≤ m := by
  unfold addClamp
  rw [hms]
  exact min_le_right _ _

theorem inv_add (rm : Ledger) (n : String) (a : ℚ) (ha : 0 ≤ a)
    (h : ledgerInBounds rm = true) : ledgerInBounds (add rm n a).1 = true := by
  cases hg : getResource rm n with
  | none => simpa [add, hg] using h
  | some r =>
    simp only [add, hg]
    apply ledgerInBounds_updateResource rm n _ _ h
    intro x _ hx
    rw [resourceInBounds_iff] at hx
    exact resourceInBounds_setField x _
      (addClamp_nonneg x a ha hx.1 hx.2) (fun m hm => addClamp_le x a m hm)

theorem inv_set_amount (rm : Ledger) (n : String) (a : ℚ)
    (h : ledgerInBounds rm = true) :
    ledgerInBounds (set_amount rm n a true).1 = true := by
  cases hg : getResource rm n with
  | none => simpa [set_amount, hg] using h
  | some r =>
    simp only [set_amount, hg]
    apply ledgerInBounds_updateResource rm n _ _ h
    intro x _ hx
    rw [resourceInBounds_iff] at hx
    apply resourceInBounds_setField x _ (le_max_left 0 _)
    intro m hm
    rw [hm]
    exact max_le (le_trans hx.1 (hx.2 m hm)) (by simp [min_le_right])

theorem inv_spend (rm : Ledger) (n : String) (a : ℚ) (ha : 0 ≤ a)
    (hnd : (rm.map Resource.name).Nodup)
    (h : ledgerInBounds rm = true) : ledgerInBounds (spend rm n a).1 = true := by
  cases hg : getResource rm n with
  | none => simpa [spend, hg] using h
  | some r =>
    by_cases hlt : r.amount < a
    · simpa [spend, hg, hlt] using h
    · simp only [spend, hg, hlt, if_false]
      have hrmem : r ∈ rm := List.mem_of_find?_eq_some hg
      have hrb := (ledgerInBounds_iff rm).mp h r hrmem
      rw [resourceInBounds_iff] at hrb
      apply ledgerInBounds_updateResource_found rm n _ r hnd hg _ h
      exact resourceInBounds_setField r _
        (sub_nonneg.mpr (le_of_not_lt hlt))
        (fun m hm => le_trans (sub_le_self _ ha) (hrb.2 m hm))

theorem inv_generate_aux (l : List Resource) (dt : ℚ) (hdt : 0 ≤ dt) (acc : Ledger)
    (h : ledgerInBounds acc = true) :
    ledgerInBounds (l.foldl (fun a r =>
        if r.generation_rate > 0 then (add a r.name (r.generation_rate * dt)).1 else a)
      acc) = true := by
  induction l generalizing acc with
  | nil => exact h
  | cons r rs ih =>
    rw [List.foldl_cons]
    apply ih
    by_cases hr : r.generation_rate > 0
    · simp only [hr, if_true]
      exact inv_add acc r.name _ (mul_nonneg (le_of_lt hr) hdt) h
    · simpa [hr] using h

theorem inv_applyOp (rm : Ledger) (op : ROp) (hop : goodOp op = true)
    (hnd : (rm.map Resource.name).Nodup) (h : ledgerInBounds rm = true) :
    ledgerInBounds (applyOp rm op) = true := by
  cases op with
  | addOp n a => exact inv_add rm n a (by simpa [goodOp] using hop) h
  | spendOp n a => exact inv_spend rm n a (by simpa [goodOp] using hop) hnd h
  | setOp n a c =>
    have hc : c = true := by simpa [goodOp] using hop
    subst hc
    exact inv_set_amount rm n a h
  | genOp dt => exact inv_generate_aux rm dt (by simpa [goodOp] using hop) rm h

/-- Claim C2 as stated is false: `add` clamps only at `max_storage` and has
no lower clamp, so a single `add` call with a negative delta drives an
in-bounds resource negative. -/
theorem C2_counterexample :
    ledgerInBounds [⟨"gold", 0, none, 0, "", "", true⟩] = true
    ∧ ledgerInBounds
        (applyOps [⟨"gold", 0, none, 0, "", "", true⟩] [ROp.addOp "gold" (-5)]) = false := by
  constructor
  · decide
  · norm_num [applyOps, applyOp, add, getResource, updateResource, addClamp,
      ledgerInBounds, resourceInBounds, List.find?]

/-- Claim C2 (amended): for every ledger whose resources all start in
`[0, maxStorage]`, any finite sequence of `add` with nonnegative delta,
`spend` with nonnegative amount, `set_amount` with `clamp = true` and
`generate` with nonnegative `delta_time` keeps every resource's amount
inside `[0, maxStorage]`.  (The names of the registered resources are
distinct, as in the Python dict.) -/
theorem C2_bounds_invariant (rm : Ledger) (hnd : (rm.map Resource.name).Nodup)
    (h : ledgerInBounds rm = true) (ops : List ROp)
    (hops : ∀ op ∈ ops, goodOp op = true) :
    ledgerInBounds (applyOps rm ops) = true := by
  induction ops generalizing rm with
  | nil => exact h
  | cons op ops ih =>
    rw [applyOps, List.foldl_cons]
    have h1 := inv_applyOp rm op (hops op (List.mem_cons_self op ops)) hnd h
    have h2 : ((applyOp rm op).map Resource.name).Nodup := by
      rw [names_applyOp]; exact hnd
    exact ih (applyOp rm op) h2 h1 (fun o ho => hops o (List.mem_cons_of_mem op ho))

theorem C2_bounds_invariant_witness :
    (([⟨"gold", 5, some 10, 1, "", "", true⟩,
       ⟨"wood", 0, none, 0, "", "", true⟩] : Ledger).map Resource.name).Nodup
    ∧ ledgerInBounds [⟨"gold", 5, some 10, 1, "", "", true⟩,
        ⟨"wood", 0, none, 0, "", "", true⟩] = true
    ∧ (∀ op ∈ [ROp.addOp "gold" 7, ROp.spendOp "gold" 2,
        ROp.setOp "gold" 100 true, ROp.genOp 3], goodOp op = true)
    ∧ ledgerInBounds (applyOps
        [⟨"gold", 5, some 10, 1, "", "", true⟩, ⟨"wood", 0, none, 0, "", "", true⟩]
        [ROp.addOp "gold" 7, ROp.spendOp "gold" 2,
         ROp.setOp "gold" 100 true, ROp.genOp 3]) = true :=
  ⟨by decide, by norm_num [ledgerInBounds, resourceInBounds],
    by norm_num [goodOp],
    C2_bounds_invariant _ (by decide)
      (by norm_num [ledgerInBounds, resourceInBounds]) _
      (by norm_num [goodOp])⟩

/-- A building type, mirroring the `Building` dataclass of
`src/engine/buildings.py` (display fields, `build_time`, `effects` and
`metadata` do not affect the verified operations and are omitted). -/
structure Building where
  name : String
  cost : CostMap
  count : ℕ
  produces : CostMap
  consumes : CostMap
  unlocked : Bool
  max_count : Option ℕ
  deriving Repr, DecidableEq

/-- A unit type, mirroring the `Unit` dataclass of `src/game/units.py`
(display fields, `training_time`, `effects` and `metadata` omitted). -/
structure GameUnit where
  name : String
  cost : CostMap
  count : ℕ
  upkeep : CostMap
  produces : CostMap
  unlocked : Bool
  max_count : Option ℕ
  deriving Repr, DecidableEq

/-- `total[resource] = total.get(resource, 0) + rate` on a Python dict:
update the existing entry in place, else append. -/
def addToTotals (m : CostMap) (k : String) (v : ℚ) : CostMap :=
  if m.any (fun p => p.1 == k) then
    m.map (fun p => if p.1 == k then (p.1, p.2 + v) else p)
  else m ++ [(k, v)]

/-- Merge one entity's rate entries into the running totals dict. -/
def mergeTotals (acc : CostMap) (entries : CostMap) : CostMap :=
  entries.foldl (fun a p => addToTotals a p.1 p.2) acc

/-- The managers' aggregation loop: start from an empty dict and merge
each entity's per-entity totals. -/
def totalsOf {α : Type} (f : α → CostMap) (l : List α) : CostMap :=
  l.foldl (fun acc x => mergeTotals acc (f x)) []

/-- `Building.get_total_production`: per-unit rates times owned count. -/
def bGetTotalProduction (b : Building) : CostMap :=
  if b.count = 0 then [] else b.produces.map (fun p => (p.1, p.2 * (b.count : ℚ)))

/-- `Building.get_total_consumption`. -/
def bGetTotalConsumption (b : Building) : CostMap :=
  if b.count = 0 then [] else b.consumes.map (fun p => (p.1, p.2 * (b.count : ℚ)))

/-- `BuildingManager.get_total_production`. -/
def bTotalProduction (bm : List Building) : CostMap := totalsOf bGetTotalProduction bm

/-- `BuildingManager.get_total_consumption`. -/
def bTotalConsumption (bm : List Building) : CostMap := totalsOf bGetTotalConsumption bm

/-- `Unit.get_total_production`. -/
def uGetTotalProduction (u : GameUnit) : CostMap :=
  if u.count = 0 then [] else u.produces.map (fun p => (p.1, p.2 * (u.count : ℚ)))

/-- `Unit.get_total_upkeep`. -/
def uGetTotalUpkeep (u : GameUnit) : CostMap :=
  if u.count = 0 then [] else u.upkeep.map (fun p => (p.1, p.2 * (u.count : ℚ)))

/-- `UnitManager.get_total_production`. -/
def uTotalProduction (um : List GameUnit) : CostMap := totalsOf uGetTotalProduction um

/-- `UnitManager.get_total_upkeep`. -/
def uTotalUpkeep (um : List GameUnit) : CostMap := totalsOf uGetTotalUpkeep um

/-- The shared production half of both `update_production` methods:
`add(resource, rate * delta_time)` for every aggregated entry. -/
def applyProductionAdd (rm : Ledger) (entries : CostMap) (dt : ℚ) : Ledger :=
  entries.foldl (fun acc c => (add acc c.1 (c.2 * dt)).1) rm

/-- `BuildingManager.update_production`: add all production, then call the
plain `spend(resource, rate * delta_time)` for every consumption entry. -/
def bUpdateProduction (bm : List Building) (rm : Ledger) (dt : ℚ) : Ledger :=
  let rm1 := applyProductionAdd rm (bTotalProduction bm) dt
  (bTotalConsumption bm).foldl (fun acc c => (spend acc c.1 (c.2 * dt)).1) rm1

/-- `UnitManager.update_production`: add all production, then spend
`min(rate * delta_time, current)` for every upkeep entry. -/
def uUpdateProduction (um : List GameUnit) (rm : Ledger) (dt : ℚ) : Ledger :=
  let rm1 := applyProductionAdd rm (uTotalProduction um) dt
  (uTotalUpkeep um).foldl
    (fun acc c => (spend acc c.1 (min (c.2 * dt) (get_amount acc c.1))).1) rm1

theorem keys_bump (m : CostMap) (k : String) (v : ℚ) :
    (m.map (fun p => if p.1 == k then (p.1, p.2 + v) else p)).map Prod.fst =
      m.map Prod.fst := by
  induction m with
  | nil => rfl
  | cons p ps ih =>
    simp only [List.map_cons, ih]
    congr 1
    by_cases h : (p.1 == k) = true <;> simp [h]

theorem nodup_addToTotals (m : CostMap) (k : String) (v : ℚ)
    (h : (m.map Prod.fst).Nodup) : ((addToTotals m k v).map Prod.fst).Nodup := by
  unfold addToTotals
  by_cases ha : m.any (fun p => p.1 == k) = true
  · simpa only [ha, if_true, keys_bump] using h
  · simp only [ha, Bool.false_eq_true, if_false, List.map_append, List.map_cons,
      List.map_nil]
    rw [List.nodup_append]
    refine ⟨h, List.nodup_singleton k, ?_⟩
    intro x hx hk
    simp only [List.mem_singleton] at hk
    subst hk
    obtain ⟨p, hp, hpk⟩ := List.mem_map.mp hx
    exact ha (List.any_eq_true.mpr ⟨p, hp, by simp [hpk]⟩)

theorem nodup_mergeTotals (entries : CostMap) (acc : CostMap)
    (h : (acc.map Prod.fst).Nodup) :
    ((mergeTotals acc entries).map Prod.fst).Nodup := by
  induction entries generalizing acc with
  | nil => exact h
  | cons p ps ih =>
    rw [mergeTotals, List.foldl_cons]
    exact ih _ (nodup_addToTotals acc p.1 p.2 h)

theorem nodup_totalsOf {α : Type} (f : α → CostMap) (l : List α) :
    ((totalsOf f l).map Prod.fst).Nodup := by
  have haux : ∀ (l2 : List α) (acc : CostMap), (acc.map Prod.fst).Nodup →
      ((l2.foldl (fun acc x => mergeTotals acc (f x)) acc).map Prod.fst).Nodup := by
    intro l2
    induction l2 with
    | nil => exact fun acc h => h
    | cons x xs ih =>
      intro acc h
      rw [List.foldl_cons]
      exact ih _ (nodup_mergeTotals (f x) acc h)
  exact haux l [] List.nodup_nil

/-- The upkeep step of `UnitManager.update_production` always succeeds on a
registered resource, spending `min(required, available)`. -/
theorem getResource_upkeepSpend_self (rm : Ledger) (n : String) (a : ℚ) :
    getResource (spend rm n (min a (get_amount rm n))).1 n =
      (getResource rm n).map (fun r => { r with amount := r.amount - min a r.amount }) := by
  cases h : getResource rm n with
  | none => simp [spend, h]
  | some r =>
    have hga : get_amount rm n = r.amount := by simp [get_amount, h]
    rw [hga, getResource_spend_self, h]
    simp [not_lt.mpr (min_le_right a r.amount)]

/-- Claim C3 as stated is false for the building registry: its
consumption step calls the plain `spend(resource, rate * delta_time)`,
which refuses entirely when the ledger holds less than the requirement.
With one building consuming `food` at rate 1, ledger `food = 1/2` and
`delta_time = 1`, the tick leaves `food` at `1/2` — the claimed
`min(required, available)` policy would have spent `1/2` and left `0`. -/
theorem C3_counterexample :
    get_amount (bUpdateProduction
      [⟨"eater", [], 1, [], [("food", 1)], true, none⟩]
      [⟨"food", 1/2, none, 0, "", "", true⟩] 1) "food" = 1/2
    ∧ ¬ get_amount (bUpdateProduction
      [⟨"eater", [], 1, [], [("food", 1)], true, none⟩]
      [⟨"food", 1/2, none, 0, "", "", true⟩] 1) "food" =
        1/2 - min ((1 : ℚ) * 1 * 1) (1/2) := by
  constructor
  · norm_num [bUpdateProduction, applyProductionAdd, bTotalProduction,
      bTotalConsumption, totalsOf, mergeTotals, addToTotals,
      bGetTotalProduction, bGetTotalConsumption, spend, getResource,
      updateResource, get_amount, List.find?]
  · norm_num [bUpdateProduction, applyProductionAdd, bTotalProduction,
      bTotalConsumption, totalsOf, mergeTotals, addToTotals,
      bGetTotalProduction, bGetTotalConsumption, spend, getResource,
      updateResource, get_amount, List.find?, min_def]

/-- Claim C3 (amended): the two registries differ.  In the unit registry
the upkeep step of `update_production` spends `min(required, available)`
on every consumed (registered) resource, absorbing any shortfall; in the
building registry the consumption step attempts the full
`rate * delta_time` via the plain `spend`, which applies it exactly when
the ledger holds at least that much and otherwise leaves the resource
unchanged (the consumption is unapplied, not clamped). -/
theorem C3_consumption_policy (um : List GameUnit) (bm : List Building)
    (rm : Ledger) (dt : ℚ) :
    (∀ c ∈ uTotalUpkeep um, ∀ r,
        getResource (applyProductionAdd rm (uTotalProduction um) dt) c.1 = some r →
        get_amount (uUpdateProduction um rm dt) c.1 = r.amount - min (c.2 * dt) r.amount)
    ∧ (∀ c ∈ bTotalConsumption bm, ∀ r,
        getResource (applyProductionAdd rm (bTotalProduction bm) dt) c.1 = some r →
        get_amount (bUpdateProduction bm rm dt) c.1 =
          if c.2 * dt ≤ r.amount then r.amount - c.2 * dt else r.amount) := by
  constructor
  · intro c hc r hr
    have hkl := foldl_keyed_lookup
      (fun acc c => (spend acc c.1 (min (c.2 * dt) (get_amount acc c.1))).1)
      (fun c r => { r with amount := r.amount - min (c.2 * dt) r.amount })
      (fun rm2 c => getResource_upkeepSpend_self rm2 c.1 (c.2 * dt))
      (fun rm2 c n h => getResource_spend_other rm2 c.1 n _ h)
      (uTotalUpkeep um) (applyProductionAdd rm (uTotalProduction um) dt)
      (nodup_totalsOf _ _)
    have h1 := hkl.1 c hc
    rw [hr] at h1
    simp only [Option.map_some, Option.map_some'] at h1
    exact get_amount_eq _ _ _ h1
  · intro c hc r hr
    have hkl := foldl_keyed_lookup
      (fun acc c => (spend acc c.1 (c.2 * dt)).1)
      (fun c r => if r.amount < c.2 * dt then r else { r with amount := r.amount - c.2 * dt })
      (fun rm2 c => getResource_spend_self rm2 c.1 (c.2 * dt))
      (fun rm2 c n h => getResource_spend_other rm2 c.1 n _ h)
      (bTotalConsumption bm) (applyProductionAdd rm (bTotalProduction bm) dt)
      (nodup_totalsOf _ _)
    have h1 := hkl.1 c hc
    rw [hr] at h1
    simp only [Option.map_some, Option.map_some'] at h1
    by_cases hle : c.2 * dt ≤ r.amount
    · rw [if_neg (not_lt.mpr hle)] at h1
      rw [if_pos hle]
      exact get_amount_eq _ _ _ h1
    · rw [if_pos (not_le.mp hle)] at h1
      rw [if_neg hle]
      exact get_amount_eq _ _ _ h1

theorem C3_consumption_policy_witness :
    (("food", (1 : ℚ)) ∈
      uTotalUpkeep [⟨"drinker", [], 1, [("food", 1)], [], true, none⟩])
    ∧ getResource (applyProductionAdd
        [⟨"food", 1/2, none, 0, "", "", true⟩]
        (uTotalProduction [⟨"drinker", [], 1, [("food", 1)], [], true, none⟩]) 1)
        "food" = some ⟨"food", 1/2, none, 0, "", "", true⟩
    ∧ get_amount (uUpdateProduction
        [⟨"drinker", [], 1, [("food", 1)], [], true, none⟩]
        [⟨"food", 1/2, none, 0, "", "", true⟩] 1) "food" = 0
    ∧ (("coal", (1 : ℚ)) ∈
      bTotalConsumption [⟨"burner", [], 1, [], [("coal", 1)], true, none⟩])
    ∧ getResource (applyProductionAdd
        [⟨"coal", 2, none, 0, "", "", true⟩]
        (bTotalProduction [⟨"burner", [], 1, [], [("coal", 1)], true, none⟩]) 1)
        "coal" = some ⟨"coal", 2, none, 0, "", "", true⟩
    ∧ get_amount (bUpdateProduction
        [⟨"burner", [], 1, [], [("coal", 1)], true, none⟩]
        [⟨"coal", 2, none, 0, "", "", true⟩] 1) "coal" = 1 := by
  have hmemu : ("food", (1 : ℚ)) ∈
      uTotalUpkeep [⟨"drinker", [], 1, [("food", 1)], [], true, none⟩] := by
    norm_num [uTotalUpkeep, totalsOf, mergeTotals, addToTotals, uGetTotalUpkeep]
  have hru : getResource (applyProductionAdd
      [⟨"food", 1/2, none, 0, "", "", true⟩]
      (uTotalProduction [⟨"drinker", [], 1, [("food", 1)], [], true, none⟩]) 1)
      "food" = some ⟨"food", 1/2, none, 0, "", "", true⟩ := by
    norm_num [applyProductionAdd, uTotalProduction, totalsOf, mergeTotals,
      uGetTotalProduction, getResource, List.find?]
  have hmemb : ("coal", (1 : ℚ)) ∈
      bTotalConsumption [⟨"burner", [], 1, [], [("coal", 1)], true, none⟩] := by
    norm_num [bTotalConsumption, totalsOf, mergeTotals, addToTotals,
      bGetTotalConsumption]
  have hrb : getResource (applyProductionAdd
      [⟨"coal", 2, none, 0, "", "", true⟩]
      (bTotalProduction [⟨"burner", [], 1, [], [("coal", 1)], true, none⟩]) 1)
      "coal" = some ⟨"coal", 2, none, 0, "", "", true⟩ := by
    norm_num [applyProductionAdd, bTotalProduction, totalsOf, mergeTotals,
      bGetTotalProduction, getResource, List.find?]
  refine ⟨hmemu, hru, ?_, hmemb, hrb, ?_⟩
  · have h1 := (C3_consumption_policy
      [⟨"drinker", [], 1, [("food", 1)], [], true, none⟩]
      [⟨"burner", [], 1, [], [("coal", 1)], true, none⟩]
      [⟨"food", 1/2, none, 0, "", "", true⟩] 1).1
      ("food", (1 : ℚ)) hmemu ⟨"food", 1/2, none, 0, "", "", true⟩ hru
    rw [h1]
    norm_num [min_def]
  · have h2 := (C3_consumption_policy
      [⟨"drinker", [], 1, [("food", 1)], [], true, none⟩]
      [⟨"burner", [], 1, [], [("coal", 1)], true, none⟩]
      [⟨"coal", 2, none, 0, "", "", true⟩] 1).2
      ("coal", (1 : ℚ)) hmemb ⟨"coal", 2, none, 0, "", "", true⟩ hrb
    rw [h2]
    norm_num

/-- `UnitManager.get_unit`. -/
def getUnit (um : List GameUnit) (name : String) : Option GameUnit :=
  um.find? (fun u => u.name == name)

/-- In-place mutation of the unit object stored under `name`. -/
def updateUnit (um : List GameUnit) (name : String) (f : GameUnit → GameUnit) :
    List GameUnit :=
  um.map (fun u => if u.name == name then f u else u)

/-- `Unit.get_cost`: cost scales linearly with the recruited count. -/
def uGetCost (u : GameUnit) (count : ℕ) : CostMap :=
  u.cost.map (fun p => (p.1, p.2 * (count : ℚ)))

/-- `UnitManager.can_recruit`: unknown or locked fails; above `max_count`
fails; otherwise the ledger must afford `cost * count`. -/
def can_recruit (um : List GameUnit) (rm : Ledger) (name : String) (count : ℕ) : Bool :=
  match getUnit um name with
  | none => false
  | some u =>
    if !u.unlocked then false
    else
      match u.max_count with
      | some m =>
        if u.count + count > m then false else can_afford rm (uGetCost u count)
      | none => can_afford rm (uGetCost u count)

/-- `UnitManager._update_production_rates`: for every aggregated produced
resource that is registered, call `modify_generation_rate` — which ADDS
the registry's entire current total rate onto the stored rate. -/
def uUpdateProductionRates (um : List GameUnit) (rm : Ledger) : Ledger :=
  (uTotalProduction um).foldl
    (fun acc p =>
      if has_resource acc p.1 then modify_generation_rate acc p.1 p.2 else acc) rm

/-- `UnitManager.recruit`: validate, spend the scaled cost atomically,
increment the count, then `_update_production_rates`. -/
def recruit (um : List GameUnit) (rm : Ledger) (name : String) (count : ℕ) :
    (List GameUnit × Ledger) × Bool :=
  if !(can_recruit um rm name count) then ((um, rm), false)
  else
    match getUnit um name with
    | none => ((um, rm), false)
    | some u =>
      let res := spend_multiple rm (uGetCost u count)
      if !res.2 then ((um, res.1), false)
      else
        let um1 := updateUnit um name (fun x => { x with count := x.count + count })
        ((um1, uUpdateProductionRates um1 res.1), true)

/-- `UnitManager.dismiss`: decrement the count (no refund), then
`_update_production_rates`. -/
def dismiss (um : List GameUnit) (rm : Ledger) (name : String) (count : ℕ) :
    (List GameUnit × Ledger) × Bool :=
  match getUnit um name with
  | none => ((um, rm), false)
  | some u =>
    if u.count < count then ((um, rm), false)
    else
      let um1 := updateUnit um name (fun x => { x with count := x.count - count })
      ((um1, uUpdateProductionRates um1 rm), true)

/-- `UnitManager.to_dict`: name-keyed records. -/
def uToDict (um : List GameUnit) : List (String × GameUnit) :=
  um.map (fun u => (u.name, u))

/-- `UnitManager.from_dict`: clear, rebuild from the records, then
`_update_production_rates` (which again adds onto the stored rates). -/
def uFromDict (data : List (String × GameUnit)) (rm : Ledger) :
    List GameUnit × Ledger :=
  let um := data.map Prod.snd
  (um, uUpdateProductionRates um rm)

theorem getGenRate_eq (rm : Ledger) (n : String) (r : Resource)
    (h : getResource rm n = some r) : getGenRate rm n = r.generation_rate := by
  simp [getGenRate, h]

theorem getGenRate_updateResource (rm : Ledger) (n m : String) (f : Resource → Resource)
    (hf : ∀ x, (f x).name = x.name)
    (hg : ∀ x, (f x).generation_rate = x.generation_rate) :
    getGenRate (updateResource rm n f) m = getGenRate rm m := by
  unfold getGenRate
  rw [getResource_updateResource rm n m f hf]
  by_cases h : m = n
  · simp only [h, if_true]
    cases getResource rm n <;> simp [hg]
  · simp [h]

theorem getGenRate_spend (rm : Ledger) (n : String) (a : ℚ) (m : String) :
    getGenRate (spend rm n a).1 m = getGenRate rm m := by
  cases h : getResource rm n with
  | none => simp [spend, h]
  | some r =>
    by_cases hlt : r.amount < a
    · simp [spend, h, hlt]
    · simp only [spend, h, hlt, if_false]
      exact getGenRate_updateResource rm n m _ (fun x => rfl) (fun x => rfl)

theorem getGenRate_spend_multiple (rm : Ledger) (costs : CostMap) (m : String) :
    getGenRate (spend_multiple rm costs).1 m = getGenRate rm m := by
  unfold spend_multiple
  by_cases hca : can_afford rm costs = true
  · simp only [hca, if_true]
    have haux : ∀ (cs : CostMap) (acc : Ledger),
        getGenRate (cs.foldl (fun acc c => (spend acc c.1 c.2).1) acc) m =
          getGenRate acc m := by
      intro cs
      induction cs with
      | nil => exact fun acc => rfl
      | cons c cs ih =>
        intro acc
        rw [List.foldl_cons, ih, getGenRate_spend]
    exact haux costs rm
  · simp [hca]

theorem has_resource_updateResource (rm : Ledger) (n : String) (f : Resource → Resource)
    (hf : ∀ x, (f x).name = x.name) (m : String) :
    has_resource (updateResource rm n f) m = has_resource rm m := by
  unfold has_resource
  rw [getResource_updateResource rm n m f hf]
  by_cases h : m = n
  · simp only [h, if_true]
    cases getResource rm n <;> rfl
  · simp [h]

theorem has_resource_spend (rm : Ledger) (n : String) (a : ℚ) (m : String) :
    has_resource (spend rm n a).1 m = has_resource rm m := by
  cases h : getResource rm n with
  | none => simp [spend, h]
  | some r =>
    by_cases hlt : r.amount < a
    · simp [spend, h, hlt]
    · simp only [spend, h, hlt, if_false]
      exact has_resource_updateResource rm n
        (fun x => { x with amount := x.amount - a }) (fun x => rfl) m

theorem has_resource_spend_multiple (rm : Ledger) (costs : CostMap) (m : String) :
    has_resource (spend_multiple rm costs).1 m = has_resource rm m := by
  unfold spend_multiple
  by_cases hca : can_afford rm costs = true
  · simp only [hca, if_true]
    have haux : ∀ (cs : CostMap) (acc : Ledger),
        has_resource (cs.foldl (fun acc c => (spend acc c.1 c.2).1) acc) m =
          has_resource acc m := by
      intro cs
      induction cs with
      | nil => exact fun acc => rfl
      | cons c cs ih =>
        intro acc
        rw [List.foldl_cons, ih, has_resource_spend]
    exact haux costs rm
  · simp [hca]

theorem has_resource_set_generation_rate (rm : Ledger) (n : String) (q : ℚ) (m : String) :
    has_resource (set_generation_rate rm n q) m = has_resource rm m := by
  cases h : getResource rm n with
  | none => simp [set_generation_rate, h]
  | some r =>
    simp only [set_generation_rate, h]
    exact has_resource_updateResource rm n
      (fun x => { x with generation_rate := max 0 q }) (fun x => rfl) m

theorem has_resource_modify (rm : Ledger) (n : String) (q : ℚ) (m : String) :
    has_resource (modify_generation_rate rm n q) m = has_resource rm m := by
  cases h : getResource rm n with
  | none => simp [modify_generation_rate, h]
  | some r =>
    simp only [modify_generation_rate, h]
    exact has_resource_set_generation_rate rm n _ m

/-- `modify_generation_rate` on a registered resource stores the clamped
sum of the old rate and the modifier. -/
theorem getGenRate_modify (rm : Ledger) (n : String) (q : ℚ) (r : Resource)
    (h : getResource rm n = some r) :
    getGenRate (modify_generation_rate rm n q) n =
      max 0 (r.generation_rate + q) := by
  simp only [modify_generation_rate, h, set_generation_rate]
  unfold getGenRate
  rw [getResource_updateResource_self rm n
    (fun x => { x with generation_rate := max 0 (r.generation_rate + q) })
    (fun x => rfl), h]
  rfl

theorem getGenRate_modify_other (rm : Ledger) (n : String) (q : ℚ) (m : String)
    (hmn : m ≠ n) :
    getGenRate (modify_generation_rate rm n q) m = getGenRate rm m := by
  cases h : getResource rm n with
  | none => simp [modify_generation_rate, h]
  | some r =>
    simp only [modify_generation_rate, h, set_generation_rate]
    unfold getGenRate
    rw [getResource_updateResource_other rm n m
      (fun x => { x with generation_rate := max 0 (r.generation_rate + q) })
      (fun x => rfl) hmn]

theorem getUnit_singleton (w : GameUnit) (uname : String) (h : w.name = uname) :
    getUnit [w] uname = some w := by
  unfold getUnit
  rw [List.find?_cons_of_pos _ (by simp [h])]

theorem updateUnit_singleton (w : GameUnit) (uname : String) (f : GameUnit → GameUnit)
    (h : w.name = uname) : updateUnit [w] uname f = [f w] := by
  unfold updateUnit
  simp [h]

theorem uTotal_single (u : GameUnit) (rname : String) (p : ℚ)
    (hu : u.produces = [(rname, p)]) (hc : u.count ≠ 0) :
    uTotalProduction [u] = [(rname, p * (u.count : ℚ))] := by
  unfold uTotalProduction totalsOf
  rw [List.foldl_cons, List.foldl_nil]
  unfold mergeTotals uGetTotalProduction
  rw [if_neg hc, hu]
  rfl

theorem uRates_single (u : GameUnit) (rm : Ledger) (rname : String) (p : ℚ)
    (hu : u.produces = [(rname, p)]) (hc : u.count ≠ 0)
    (hr : has_resource rm rname = true) :
    uUpdateProductionRates [u] rm =
      modify_generation_rate rm rname (p * (u.count : ℚ)) := by
  unfold uUpdateProductionRates
  rw [uTotal_single u rname p hu hc, List.foldl_cons, List.foldl_nil]
  simp [hr]

/-- A successful `recruit` increments the count and republishes the rates
on the ledger left by the atomic cost deduction. -/
theorem recruit_success (um : List GameUnit) (rm : Ledger) (nm : String) (k : ℕ)
    (u : GameUnit) (hu : getUnit um nm = some u)
    (hok : (recruit um rm nm k).2 = true) :
    recruit um rm nm k =
      ((updateUnit um nm (fun x => { x with count := x.count + k }),
        uUpdateProductionRates
          (updateUnit um nm (fun x => { x with count := x.count + k }))
          (spend_multiple rm (uGetCost u k)).1), true) := by
  by_cases hcr : can_recruit um rm nm k = true
  · by_cases hsm : (spend_multiple rm (uGetCost u k)).2 = true
    · simp only [recruit, hcr, hu, hsm, Bool.not_true, Bool.false_eq_true, if_false]
    · simp only [recruit, hcr, hu, Bool.not_true, Bool.false_eq_true, if_false] at hok
      rw [Bool.not_eq_true] at hsm
      simp [hsm] at hok
  · rw [Bool.not_eq_true] at hcr
    simp [recruit, hcr] at hok

/-- A `dismiss` of at most the owned count decrements and republishes. -/
theorem dismiss_eq (um : List GameUnit) (rm : Ledger) (nm : String) (k : ℕ)
    (u : GameUnit) (hu : getUnit um nm = some u) (hk : ¬ u.count < k) :
    dismiss um rm nm k =
      ((updateUnit um nm (fun x => { x with count := x.count - k }),
        uUpdateProductionRates
          (updateUnit um nm (fun x => { x with count := x.count - k })) rm),
       true) := by
  simp only [dismiss, hu, hk, if_false]

/-- Claim C10: every successful `recruit` (and `dismiss`, and
`UnitManager.from_dict`) calls `_update_production_rates`, which adds the
registry's entire current total production rate onto each produced
resource's `generation_rate` instead of replacing it: a unit producing
`rname` at per-unit rate `p > 0`, recruited twice one at a time into a
ledger whose rate for `rname` starts at `g0 ≥ 0`, leaves the stored rate
at `g0 + 3p` (the two calls added `p` and then `2p`), strictly above the
aggregate production `2p`; a following `dismiss` adds `p` more, and
`from_dict` of the serialized registry adds `2p` more. -/
theorem C10_generation_rate_accumulates (w : GameUnit) (rname uname : String)
    (p g0 : ℚ) (rm : Ledger) (r0 : Resource)
    (hwn : w.name = uname) (hwp : w.produces = [(rname, p)]) (hwc : w.count = 0)
    (hr0 : getResource rm rname = some r0) (hg0 : r0.generation_rate = g0)
    (h0 : 0 ≤ g0) (hp : 0 < p)
    (h1 : (recruit [w] rm uname 1).2 = true)
    (h2 : (recruit (recruit [w] rm uname 1).1.1
            (recruit [w] rm uname 1).1.2 uname 1).2 = true) :
    getGenRate (recruit (recruit [w] rm uname 1).1.1
        (recruit [w] rm uname 1).1.2 uname 1).1.2 rname = g0 + 3 * p
    ∧ uTotalProduction (recruit (recruit [w] rm uname 1).1.1
        (recruit [w] rm uname 1).1.2 uname 1).1.1 = [(rname, p * 2)]
    ∧ getGenRate (recruit (recruit [w] rm uname 1).1.1
        (recruit [w] rm uname 1).1.2 uname 1).1.2 rname > p * 2
    ∧ (dismiss (recruit (recruit [w] rm uname 1).1.1
        (recruit [w] rm uname 1).1.2 uname 1).1.1
        (recruit (recruit [w] rm uname 1).1.1
          (recruit [w] rm uname 1).1.2 uname 1).1.2 uname 1).2 = true
    ∧ getGenRate (dismiss (recruit (recruit [w] rm uname 1).1.1
        (recruit [w] rm uname 1).1.2 uname 1).1.1
        (recruit (recruit [w] rm uname 1).1.1
          (recruit [w] rm uname 1).1.2 uname 1).1.2 uname 1).1.2 rname = g0 + 4 * p
    ∧ getGenRate (uFromDict (uToDict (recruit (recruit [w] rm uname 1).1.1
        (recruit [w] rm uname 1).1.2 uname 1).1.1)
        (recruit (recruit [w] rm uname 1).1.1
          (recruit [w] rm uname 1).1.2 uname 1).1.2).2 rname = g0 + 5 * p := by
  -- first recruit
  have hu0 : getUnit [w] uname = some w := getUnit_singleton w uname hwn
  have hs1 := recruit_success [w] rm uname 1 w hu0 h1
  rw [updateUnit_singleton w uname _ hwn] at hs1
  obtain ⟨w1, hW1⟩ : ∃ w1, ({ w with count := w.count + 1 } : GameUnit) = w1 := ⟨_, rfl⟩
  rw [hW1] at hs1
  have hw1n : w1.name = uname := by rw [← hW1]; exact hwn
  have hw1p : w1.produces = [(rname, p)] := by rw [← hW1]; exact hwp
  have hw1c : w1.count = 1 := by rw [← hW1]; simp [hwc]
  have hgr1 : getGenRate (spend_multiple rm (uGetCost w 1)).1 rname = g0 := by
    rw [getGenRate_spend_multiple, getGenRate_eq rm rname r0 hr0, hg0]
  have hhas1 : has_resource (spend_multiple rm (uGetCost w 1)).1 rname = true := by
    rw [has_resource_spend_multiple]
    simp [has_resource, hr0]
  have hrates1 : uUpdateProductionRates [w1] (spend_multiple rm (uGetCost w 1)).1 =
      modify_generation_rate (spend_multiple rm (uGetCost w 1)).1 rname
        (p * (w1.count : ℚ)) :=
    uRates_single w1 _ rname p hw1p (by rw [hw1c]; exact one_ne_zero) hhas1
  obtain ⟨r1, hr1⟩ := Option.isSome_iff_exists.mp hhas1
  have hr1g : r1.generation_rate = g0 := by
    rw [← getGenRate_eq _ rname r1 hr1, hgr1]
  have hgrL1 : getGenRate (uUpdateProductionRates [w1]
      (spend_multiple rm (uGetCost w 1)).1) rname = g0 + p := by
    rw [hrates1, getGenRate_modify _ rname _ r1 hr1, hr1g, hw1c]
    push_cast
    rw [mul_one]
    exact max_eq_right (by linarith)
  have hhasL1 : has_resource (uUpdateProductionRates [w1]
      (spend_multiple rm (uGetCost w 1)).1) rname = true := by
    rw [hrates1, has_resource_modify]
    exact hhas1
  -- second recruit
  simp only [hs1] at h2 ⊢
  have hu1 : getUnit [w1] uname = some w1 := getUnit_singleton w1 uname hw1n
  have hs2 := recruit_success [w1]
    (uUpdateProductionRates [w1] (spend_multiple rm (uGetCost w 1)).1)
    uname 1 w1 hu1 h2
  rw [updateUnit_singleton w1 uname _ hw1n] at hs2
  obtain ⟨w2, hW2⟩ : ∃ w2, ({ w1 with count := w1.count + 1 } : GameUnit) = w2 := ⟨_, rfl⟩
  rw [hW2] at hs2
  have hw2n : w2.name = uname := by rw [← hW2]; exact hw1n
  have hw2p : w2.produces = [(rname, p)] := by rw [← hW2]; exact hw1p
  have hw2c : w2.count = 2 := by rw [← hW2]; simp [hw1c]
  have hgr2 : getGenRate (spend_multiple
      (uUpdateProductionRates [w1] (spend_multiple rm (uGetCost w 1)).1)
      (uGetCost w1 1)).1 rname = g0 + p := by
    rw [getGenRate_spend_multiple]
    exact hgrL1
  have hhas2 : has_resource (spend_multiple
      (uUpdateProductionRates [w1] (spend_multiple rm (uGetCost w 1)).1)
      (uGetCost w1 1)).1 rname = true := by
    rw [has_resource_spend_multiple]
    exact hhasL1
  have hrates2 : uUpdateProductionRates [w2] (spend_multiple
      (uUpdateProductionRates [w1] (spend_multiple rm (uGetCost w 1)).1)
      (uGetCost w1 1)).1 =
      modify_generation_rate (spend_multiple
        (uUpdateProductionRates [w1] (spend_multiple rm (uGetCost w 1)).1)
        (uGetCost w1 1)).1 rname (p * (w2.count : ℚ)) :=
    uRates_single w2 _ rname p hw2p (by rw [hw2c]; exact two_ne_zero) hhas2
  obtain ⟨r2, hr2⟩ := Option.isSome_iff_exists.mp hhas2
  have hr2g : r2.generation_rate = g0 + p := by
    rw [← getGenRate_eq _ rname r2 hr2, hgr2]
  have hgrL2 : getGenRate (uUpdateProductionRates [w2] (spend_multiple
      (uUpdateProductionRates [w1] (spend_multiple rm (uGetCost w 1)).1)
      (uGetCost w1 1)).1) rname = g0 + 3 * p := by
    rw [hrates2, getGenRate_modify _ rname _ r2 hr2, hr2g, hw2c]
    push_cast
    have heq : g0 + p + p * 2 = g0 + 3 * p := by ring
    rw [heq]
    exact max_eq_right (by linarith)
  have hhasL2 : has_resource (uUpdateProductionRates [w2] (spend_multiple
      (uUpdateProductionRates [w1] (spend_multiple rm (uGetCost w 1)).1)
      (uGetCost w1 1)).1) rname = true := by
    rw [hrates2, has_resource_modify]
    exact hhas2
  simp only [hs2]
  obtain ⟨r3, hr3⟩ := Option.isSome_iff_exists.mp hhasL2
  have hr3g : r3.generation_rate = g0 + 3 * p := by
    rw [← getGenRate_eq _ rname r3 hr3, hgrL2]
  have hdis := dismiss_eq [w2]
    (uUpdateProductionRates [w2] (spend_multiple
      (uUpdateProductionRates [w1] (spend_multiple rm (uGetCost w 1)).1)
      (uGetCost w1 1)).1) uname 1 w2 (getUnit_singleton w2 uname hw2n)
    (by rw [hw2c]; norm_num)
  rw [updateUnit_singleton w2 uname _ hw2n] at hdis
  obtain ⟨w3, hW3⟩ : ∃ w3, ({ w2 with count := w2.count - 1 } : GameUnit) = w3 := ⟨_, rfl⟩
  rw [hW3] at hdis
  have hw3p : w3.produces = [(rname, p)] := by rw [← hW3]; exact hw2p
  have hw3c : w3.count = 1 := by rw [← hW3]; simp [hw2c]
  refine ⟨hgrL2, ?_, ?_, ?_, ?_, ?_⟩
  · rw [uTotal_single w2 rname p hw2p (by rw [hw2c]; exact two_ne_zero), hw2c]
    norm_num
  · rw [hgrL2]
    linarith
  · rw [hdis]
  · rw [hdis]
    simp only
    rw [uRates_single w3 _ rname p hw3p (by rw [hw3c]; exact one_ne_zero) hhasL2,
      getGenRate_modify _ rname _ r3 hr3, hr3g, hw3c]
    push_cast
    rw [mul_one]
    have heq : g0 + 3 * p + p = g0 + 4 * p := by ring
    rw [heq]
    exact max_eq_right (by linarith)
  · unfold uFromDict uToDict
    simp only [List.map_cons, List.map_nil]
    rw [uRates_single w2 _ rname p hw2p (by rw [hw2c]; exact two_ne_zero) hhasL2,
      getGenRate_modify _ rname _ r3 hr3, hr3g, hw2c]
    push_cast
    have heq : g0 + 3 * p + p * 2 = g0 + 5 * p := by ring
    rw [heq]
    exact max_eq_right (by linarith)

theorem C10_generation_rate_accumulates_witness :
    (recruit [⟨"worker", [], 0, [], [("wood", 1)], true, none⟩]
      [⟨"wood", 0, none, 0, "", "", true⟩] "worker" 1).2 = true
    ∧ (recruit (recruit [⟨"worker", [], 0, [], [("wood", 1)], true, none⟩]
      [⟨"wood", 0, none, 0, "", "", true⟩] "worker" 1).1.1
      (recruit [⟨"worker", [], 0, [], [("wood", 1)], true, none⟩]
      [⟨"wood", 0, none, 0, "", "", true⟩] "worker" 1).1.2 "worker" 1).2 = true
    ∧ getGenRate (recruit (recruit [⟨"worker", [], 0, [], [("wood", 1)], true, none⟩]
      [⟨"wood", 0, none, 0, "", "", true⟩] "worker" 1).1.1
      (recruit [⟨"worker", [], 0, [], [("wood", 1)], true, none⟩]
      [⟨"wood", 0, none, 0, "", "", true⟩] "worker" 1).1.2 "worker" 1).1.2 "wood" = 0 + 3 * 1
    ∧ uTotalProduction (recruit (recruit [⟨"worker", [], 0, [], [("wood", 1)], true, none⟩]
      [⟨"wood", 0, none, 0, "", "", true⟩] "worker" 1).1.1
      (recruit [⟨"worker", [], 0, [], [("wood", 1)], true, none⟩]
      [⟨"wood", 0, none, 0, "", "", true⟩] "worker" 1).1.2 "worker" 1).1.1 = [("wood", 1 * 2)]
    ∧ getGenRate (recruit (recruit [⟨"worker", [], 0, [], [("wood", 1)], true, none⟩]
      [⟨"wood", 0, none, 0, "", "", true⟩] "worker" 1).1.1
      (recruit [⟨"worker", [], 0, [], [("wood", 1)], true, none⟩]
      [⟨"wood", 0, none, 0, "", "", true⟩] "worker" 1).1.2 "worker" 1).1.2 "wood" > 1 * 2
    ∧ (dismiss (recruit (recruit [⟨"worker", [], 0, [], [("wood", 1)], true, none⟩]
      [⟨"wood", 0, none, 0, "", "", true⟩] "worker" 1).1.1
      (recruit [⟨"worker", [], 0, [], [("wood", 1)], true, none⟩]
      [⟨"wood", 0, none, 0, "", "", true⟩] "worker" 1).1.2 "worker" 1).1.1 (recruit (recruit [⟨"worker", [], 0, [], [("wood", 1)], true, none⟩]
      [⟨"wood", 0, none, 0, "", "", true⟩] "worker" 1).1.1
      (recruit [⟨"worker", [], 0, [], [("wood", 1)], true, none⟩]
      [⟨"wood", 0, none, 0, "", "", true⟩] "worker" 1).1.2 "worker" 1).1.2 "worker" 1).2 = true
    ∧ getGenRate (dismiss (recruit (recruit [⟨"worker", [], 0, [], [("wood", 1)], true, none⟩]
      [⟨"wood", 0, none, 0, "", "", true⟩] "worker" 1).1.1
      (recruit [⟨"worker", [], 0, [], [("wood", 1)], true, none⟩]
      [⟨"wood", 0, none, 0, "", "", true⟩] "worker" 1).1.2 "worker" 1).1.1 (recruit (recruit [⟨"worker", [], 0, [], [("wood", 1)], true, none⟩]
      [⟨"wood", 0, none, 0, "", "", true⟩] "worker" 1).1.1
      (recruit [⟨"worker", [], 0, [], [("wood", 1)], true, none⟩]
      [⟨"wood", 0, none, 0, "", "", true⟩] "worker" 1).1.2 "worker" 1).1.2 "worker" 1).1.2 "wood" = 0 + 4 * 1
    ∧ getGenRate (uFromDict (uToDict (recruit (recruit [⟨"worker", [], 0, [], [("wood", 1)], true, none⟩]
      [⟨"wood", 0, none, 0, "", "", true⟩] "worker" 1).1.1
      (recruit [⟨"worker", [], 0, [], [("wood", 1)], true, none⟩]
      [⟨"wood", 0, none, 0, "", "", true⟩] "worker" 1).1.2 "worker" 1).1.1) (recruit (recruit [⟨"worker", [], 0, [], [("wood", 1)], true, none⟩]
      [⟨"wood", 0, none, 0, "", "", true⟩] "worker" 1).1.1
      (recruit [⟨"worker", [], 0, [], [("wood", 1)], true, none⟩]
      [⟨"wood", 0, none, 0, "", "", true⟩] "worker" 1).1.2 "worker" 1).1.2).2 "wood" = 0 + 5 * 1 := by
  have hmain := C10_generation_rate_accumulates
    ⟨"worker", [], 0, [], [("wood", 1)], true, none⟩ "wood" "worker" 1 0
    [⟨"wood", 0, none, 0, "", "", true⟩] ⟨"wood", 0, none, 0, "", "", true⟩
    rfl rfl rfl rfl rfl (by norm_num) (by norm_num) rfl rfl
  exact ⟨rfl, rfl, hmain.1, hmain.2.1, hmain.2.2.1, hmain.2.2.2.1,
    hmain.2.2.2.2.1, hmain.2.2.2.2.2⟩

/-- An upgrade, mirroring the `Upgrade` dataclass of `src/game/upgrades.py`
(display fields and `metadata` omitted; the `prerequisites` set is kept as
the list of its names). -/
structure Upgrade where
  name : String
  cost : CostMap
  purchased : Bool
  effects : CostMap
  unlocked : Bool
  prerequisites : List String
  unlocks : List String
  repeatable : Bool
  times_purchased : ℕ
  max_purchases : Option ℕ
  deriving Repr, DecidableEq

/-- `UpgradeManager.get_upgrade`. -/
def getUpgrade (mgr : List Upgrade) (name : String) : Option Upgrade :=
  mgr.find? (fun u => u.name == name)

/-- In-place mutation of the upgrade object stored under `name`. -/
def updateUpgrade (mgr : List Upgrade) (name : String) (f : Upgrade → Upgrade) :
    List Upgrade :=
  mgr.map (fun u => if u.name == name then f u else u)

/-- `UpgradeManager.has_upgrade`. -/
def has_upgrade (mgr : List Upgrade) (name : String) : Bool :=
  (getUpgrade mgr name).isSome

/-- `Upgrade.can_purchase_more`: a non-repeatable upgrade only while not
purchased; a repeatable one while below `max_purchases` (unbounded when
the ceiling is absent). -/
def can_purchase_more (u : Upgrade) : Bool :=
  if !u.repeatable then !u.purchased
  else
    match u.max_purchases with
    | none => true
    | some m => decide (u.times_purchased < m)

/-- `Upgrade.get_cost`: the current cost; for a repeatable upgrade with at
least one purchase, the base cost scaled by `1.5 ^ times_purchased`. -/
def Upgrade.get_cost (u : Upgrade) : CostMap :=
  if u.repeatable && decide (u.times_purchased > 0) then
    u.cost.map (fun p => (p.1, p.2 * ((3 : ℚ)/2) ^ u.times_purchased))
  else u.cost

/-- `UpgradeManager.is_purchased`: reads only the `purchased` flag. -/
def is_purchased (mgr : List Upgrade) (name : String) : Bool :=
  match getUpgrade mgr name with
  | some u => u.purchased
  | none => false

/-- `UpgradeManager.can_purchase`: unknown or locked fails; then
`can_purchase_more`; then every prerequisite must satisfy `is_purchased`;
then the ledger must afford the current cost. -/
def can_purchase (mgr : List Upgrade) (rm : Ledger) (name : String) : Bool :=
  match getUpgrade mgr name with
  | none => false
  | some u =>
    if !u.unlocked then false
    else if !(can_purchase_more u) then false
    else if !(u.prerequisites.all (fun q => is_purchased mgr q)) then false
    else can_afford rm u.get_cost

/-- `UpgradeManager.unlock_upgrade`. -/
def unlock_upgrade (mgr : List Upgrade) (name : String) : List Upgrade :=
  updateUpgrade mgr name (fun x => { x with unlocked := true })

/-- `UpgradeManager._process_unlocks`: unlock every named upgrade that is
registered. -/
def process_unlocks (mgr : List Upgrade) (u : Upgrade) : List Upgrade :=
  u.unlocks.foldl
    (fun acc nm => if has_upgrade acc nm then unlock_upgrade acc nm else acc) mgr

/-- `UpgradeManager.purchase`: re-check `can_purchase`, spend the current
cost atomically, then increment `times_purchased` (repeatable) or set
`purchased` (non-repeatable), then process unlocks. -/
def purchase (mgr : List Upgrade) (rm : Ledger) (name : String) :
    (List Upgrade × Ledger) × Bool :=
  if !(can_purchase mgr rm name) then ((mgr, rm), false)
  else
    match getUpgrade mgr name with
    | none => ((mgr, rm), false)
    | some u =>
      let res := spend_multiple rm u.get_cost
      if !res.2 then ((mgr, res.1), false)
      else
        let mgr1 := updateUpgrade mgr name (fun x =>
          if x.repeatable then { x with times_purchased := x.times_purchased + 1 }
          else { x with purchased := true })
        ((process_unlocks mgr1 u, res.1), true)

/-- `n` successive `purchase(name)` calls. -/
def purchaseRepeat (mgr : List Upgrade) (rm : Ledger) (name : String) :
    ℕ → List Upgrade × Ledger
  | 0 => (mgr, rm)
  | n + 1 =>
    let s := purchaseRepeat mgr rm name n
    (purchase s.1 s.2 name).1

theorem purchase_of_cannot (mgr : List Upgrade) (rm : Ledger) (name : String)
    (h : can_purchase mgr rm name = false) :
    purchase mgr rm name = ((mgr, rm), false) := by
  simp [purchase, h]

/-- Claim C6: when `can_purchase(name)` is false, any number of repeated
`purchase(name)` calls each return false and leave the whole upgrade
registry and the whole ledger (hence `purchased`, `times_purchased` and
every resource amount) unchanged. -/
theorem C6_failed_purchase_idempotent (mgr : List Upgrade) (rm : Ledger)
    (name : String) (h : can_purchase mgr rm name = false) (n : ℕ) :
    purchaseRepeat mgr rm name n = (mgr, rm)
    ∧ (purchase mgr rm name).2 = false := by
  refine ⟨?_, by rw [purchase_of_cannot mgr rm name h]⟩
  induction n with
  | zero => rfl
  | succ k ih =>
    show (purchase (purchaseRepeat mgr rm name k).1
      (purchaseRepeat mgr rm name k).2 name).1 = (mgr, rm)
    rw [ih]
    rw [purchase_of_cannot mgr rm name h]

theorem C6_failed_purchase_idempotent_witness :
    can_purchase [⟨"locked_up", [("gold", 5)], false, [], false, [], [], false, 0, none⟩]
      [⟨"gold", 100, none, 0, "", "", true⟩] "locked_up" = false
    ∧ purchaseRepeat [⟨"locked_up", [("gold", 5)], false, [], false, [], [], false, 0, none⟩]
        [⟨"gold", 100, none, 0, "", "", true⟩] "locked_up" 3 =
        ([⟨"locked_up", [("gold", 5)], false, [], false, [], [], false, 0, none⟩],
         [⟨"gold", 100, none, 0, "", "", true⟩])
    ∧ (purchase [⟨"locked_up", [("gold", 5)], false, [], false, [], [], false, 0, none⟩]
        [⟨"gold", 100, none, 0, "", "", true⟩] "locked_up").2 = false :=
  ⟨by decide,
   (C6_failed_purchase_idempotent _ _ "locked_up" (by decide) 3).1,
   (C6_failed_purchase_idempotent _ _ "locked_up" (by decide) 3).2⟩

/-- Claim C5: an upgrade with some prerequisite whose `purchased` flag is
unset is neither purchasable nor actually purchased, whatever the ledger
holds; once every prerequisite is purchased and the upgrade is unlocked,
below its ceiling and affordable, `can_purchase` returns true. -/
theorem C5_prerequisite_gate (mgr : List Upgrade) (rm : Ledger) (u : Upgrade)
    (hu : getUpgrade mgr u.name = some u) :
    ((∃ q ∈ u.prerequisites, is_purchased mgr q = false) →
        can_purchase mgr rm u.name = false
        ∧ purchase mgr rm u.name = ((mgr, rm), false))
    ∧ ((∀ q ∈ u.prerequisites, is_purchased mgr q = true) →
        u.unlocked = true → can_purchase_more u = true →
        can_afford rm u.get_cost = true →
        can_purchase mgr rm u.name = true) := by
  constructor
  · intro hex
    have hall : u.prerequisites.all (fun q => is_purchased mgr q) = false := by
      rcases hex with ⟨q, hq, hqp⟩
      rw [List.all_eq_false]
      exact ⟨q, hq, by simp [hqp]⟩
    have hcp : can_purchase mgr rm u.name = false := by
      unfold can_purchase
      rw [hu]
      by_cases hul : u.unlocked = true
      · by_cases hcm : can_purchase_more u = true
        · simp [hul, hcm, hall]
        · rw [Bool.not_eq_true] at hcm
          simp [hul, hcm]
      · rw [Bool.not_eq_true] at hul
        simp [hul]
    exact ⟨hcp, purchase_of_cannot mgr rm u.name hcp⟩
  · intro hall hul hcm haff
    have hall2 : u.prerequisites.all (fun q => is_purchased mgr q) = true :=
      List.all_eq_true.mpr hall
    unfold can_purchase
    rw [hu]
    simp [hul, hcm, hall2, haff]

theorem C5_prerequisite_gate_witness :
    getUpgrade
      [⟨"basic", [], false, [], true, [], [], false, 0, none⟩,
       ⟨"adv", [], false, [], true, ["basic"], [], false, 0, none⟩]
      "adv" = some ⟨"adv", [], false, [], true, ["basic"], [], false, 0, none⟩
    ∧ (∃ q ∈ (⟨"adv", [], false, [], true, ["basic"], [], false, 0, none⟩ : Upgrade).prerequisites,
        is_purchased
          [⟨"basic", [], false, [], true, [], [], false, 0, none⟩,
           ⟨"adv", [], false, [], true, ["basic"], [], false, 0, none⟩] q = false)
    ∧ can_purchase
        [⟨"basic", [], false, [], true, [], [], false, 0, none⟩,
         ⟨"adv", [], false, [], true, ["basic"], [], false, 0, none⟩]
        [⟨"gold", 100, none, 0, "", "", true⟩] "adv" = false
    ∧ purchase
        [⟨"basic", [], false, [], true, [], [], false, 0, none⟩,
         ⟨"adv", [], false, [], true, ["basic"], [], false, 0, none⟩]
        [⟨"gold", 100, none, 0, "", "", true⟩] "adv" =
        (([⟨"basic", [], false, [], true, [], [], false, 0, none⟩,
           ⟨"adv", [], false, [], true, ["basic"], [], false, 0, none⟩],
          [⟨"gold", 100, none, 0, "", "", true⟩]), false)
    ∧ can_purchase
        [⟨"basic", [], true, [], true, [], [], false, 0, none⟩,
         ⟨"adv", [], false, [], true, ["basic"], [], false, 0, none⟩]
        [⟨"gold", 100, none, 0, "", "", true⟩] "adv" = true := by
  have h1 := C5_prerequisite_gate
    [⟨"basic", [], false, [], true, [], [], false, 0, none⟩,
     ⟨"adv", [], false, [], true, ["basic"], [], false, 0, none⟩]
    [⟨"gold", 100, none, 0, "", "", true⟩]
    ⟨"adv", [], false, [], true, ["basic"], [], false, 0, none⟩ rfl
  have h2 := C5_prerequisite_gate
    [⟨"basic", [], true, [], true, [], [], false, 0, none⟩,
     ⟨"adv", [], false, [], true, ["basic"], [], false, 0, none⟩]
    [⟨"gold", 100, none, 0, "", "", true⟩]
    ⟨"adv", [], false, [], true, ["basic"], [], false, 0, none⟩ rfl
  have hex : ∃ q ∈ (⟨"adv", [], false, [], true, ["basic"], [], false, 0, none⟩ : Upgrade).prerequisites,
      is_purchased
        [⟨"basic", [], false, [], true, [], [], false, 0, none⟩,
         ⟨"adv", [], false, [], true, ["basic"], [], false, 0, none⟩] q = false :=
    ⟨"basic", by decide, by decide⟩
  exact ⟨rfl, hex, (h1.1 hex).1, (h1.1 hex).2,
    h2.2 (by decide) rfl rfl (by decide)⟩

/-- Claim C7: for a repeatable upgrade the current cost is the base cost
scaled by `1.5 ^ times_purchased` on every resource, and once
`times_purchased` has reached a set `max_purchases`, `can_purchase` is
false regardless of the ledger. -/
theorem C7_repeatable_cost_and_ceiling (u : Upgrade) (hrep : u.repeatable = true) :
    u.get_cost = u.cost.map (fun p => (p.1, p.2 * ((3 : ℚ)/2) ^ u.times_purchased))
    ∧ ∀ m : ℕ, u.max_purchases = some m → m ≤ u.times_purchased →
        ∀ (mgr : List Upgrade) (rm : Ledger), getUpgrade mgr u.name = some u →
          can_purchase mgr rm u.name = false := by
  constructor
  · unfold Upgrade.get_cost
    cases htp : u.times_purchased with
    | zero =>
      rw [if_neg (by simp), pow_zero]
      induction u.cost with
      | nil => rfl
      | cons c cs ih =>
        simp only [List.map_cons, mul_one, Prod.mk.eta, List.cons.injEq, true_and]
        simp
    | succ k =>
      simp [hrep, htp]
  · intro m hm hmle mgr rm hu
    have hcm : can_purchase_more u = false := by
      unfold can_purchase_more
      simp [hrep, hm, not_lt.mpr hmle]
    unfold can_purchase
    rw [hu]
    by_cases hul : u.unlocked = true
    · simp [hul, hcm]
    · rw [Bool.not_eq_true] at hul
      simp [hul]

theorem C7_repeatable_cost_and_ceiling_witness :
    Upgrade.get_cost
      ⟨"worker_training", [("gold", 100)], false, [], true, [], [], true, 1, some 2⟩ =
      [("gold", 150)]
    ∧ can_purchase
        [⟨"worker_training", [("gold", 100)], false, [], true, [], [], true, 2, some 2⟩]
        [⟨"gold", 10000, none, 0, "", "", true⟩] "worker_training" = false := by
  constructor
  · rw [(C7_repeatable_cost_and_ceiling
      ⟨"worker_training", [("gold", 100)], false, [], true, [], [], true, 1, some 2⟩
      rfl).1]
    norm_num
  · exact (C7_repeatable_cost_and_ceiling
      ⟨"worker_training", [("gold", 100)], false, [], true, [], [], true, 2, some 2⟩
      rfl).2 2 rfl (by norm_num)
      [⟨"worker_training", [("gold", 100)], false, [], true, [], [], true, 2, some 2⟩]
      [⟨"gold", 10000, none, 0, "", "", true⟩] rfl

/-- One mutation of the upgrade subsystem or its ledger: a registration
(`register_upgrade` always starts with `purchased = false` and
`times_purchased = 0`, and raises on a duplicate name), a `purchase`, an
`unlock_upgrade`, or an arbitrary replacement of the ledger (covering
every resource-side operation, none of which touches upgrade state). -/
inductive UStep : List Upgrade × Ledger → List Upgrade × Ledger → Prop where
  | register (s : List Upgrade × Ledger) (name : String) (cost : CostMap)
      (effects : CostMap) (unlocked : Bool) (prerequisites unlocks : List String)
      (repeatable : Bool) (max_purchases : Option ℕ)
      (h : has_upgrade s.1 name = false) :
      UStep s (s.1 ++ [⟨name, cost, false, effects, unlocked, prerequisites,
        unlocks, repeatable, 0, max_purchases⟩], s.2)
  | purchaseStep (s : List Upgrade × Ledger) (name : String) :
      UStep s (purchase s.1 s.2 name).1
  | unlockStep (s : List Upgrade × Ledger) (name : String) :
      UStep s (unlock_upgrade s.1 name, s.2)
  | ledgerStep (s : List Upgrade × Ledger) (rm : Ledger) :
      UStep s (s.1, rm)

/-- States reachable from an empty upgrade registry. -/
inductive UReachable : List Upgrade × Ledger → Prop where
  | init (rm : Ledger) : UReachable ([], rm)
  | step {s t : List Upgrade × Ledger} :
      UReachable s → UStep s t → UReachable t

/-- No repeatable upgrade ever has its `purchased` flag set. -/
def repeatableNeverPurchased (mgr : List Upgrade) : Prop :=
  ∀ u ∈ mgr, u.repeatable = true → u.purchased = false

theorem rnp_updateUpgrade (mgr : List Upgrade) (n : String) (f : Upgrade → Upgrade)
    (hf : ∀ x, (x.repeatable = true → x.purchased = false) →
      ((f x).repeatable = true → (f x).purchased = false))
    (h : repeatableNeverPurchased mgr) :
    repeatableNeverPurchased (updateUpgrade mgr n f) := by
  intro y hy
  rw [updateUpgrade] at hy
  obtain ⟨x, hx, rfl⟩ := List.mem_map.mp hy
  by_cases hxn : (x.name == n) = true
  · simp only [hxn, if_true]
    exact hf x (h x hx)
  · simp only [hxn, Bool.false_eq_true, if_false]
    exact h x hx

theorem rnp_process_unlocks (mgr : List Upgrade) (u : Upgrade)
    (h : repeatableNeverPurchased mgr) :
    repeatableNeverPurchased (process_unlocks mgr u) := by
  unfold process_unlocks
  have haux : ∀ (l : List String) (acc : List Upgrade), repeatableNeverPurchased acc →
      repeatableNeverPurchased (l.foldl
        (fun acc nm => if has_upgrade acc nm then unlock_upgrade acc nm else acc) acc) := by
    intro l
    induction l with
    | nil => exact fun acc hacc => hacc
    | cons nm tl ih =>
      intro acc hacc
      rw [List.foldl_cons]
      apply ih
      by_cases hh : has_upgrade acc nm = true
      · simp only [hh, if_true]
        exact rnp_updateUpgrade acc nm _ (fun x hx => hx) hacc
      · rw [Bool.not_eq_true] at hh
        simp only [hh, Bool.false_eq_true, if_false]
        exact hacc
  exact haux u.unlocks mgr h

theorem rnp_purchase (mgr : List Upgrade) (rm : Ledger) (name : String)
    (h : repeatableNeverPurchased mgr) :
    repeatableNeverPurchased (purchase mgr rm name).1.1 := by
  unfold purchase
  by_cases hcp : can_purchase mgr rm name = true
  · simp only [hcp, Bool.not_true, Bool.false_eq_true, if_false]
    cases hg : getUpgrade mgr name with
    | none => exact h
    | some u =>
      by_cases hsm : (spend_multiple rm u.get_cost).2 = true
      · simp only [hsm, Bool.not_true, Bool.false_eq_true, if_false]
        apply rnp_process_unlocks
        apply rnp_updateUpgrade mgr name _ _ h
        intro x hx
        by_cases hrep : x.repeatable = true
        · simp only [hrep, if_true]
          exact fun _ => hx hrep
        · rw [Bool.not_eq_true] at hrep
          simp only [hrep, Bool.false_eq_true, if_false]
          intro habs
          exact habs.elim
      · rw [Bool.not_eq_true] at hsm
        simp only [hsm, Bool.not_false, if_true]
        exact h
  · rw [Bool.not_eq_true] at hcp
    simp only [hcp, Bool.not_false, if_true]
    exact h

theorem rnp_invariant (s : List Upgrade × Ledger) (h : UReachable s) :
    repeatableNeverPurchased s.1 := by
  induction h with
  | init rm => intro u hu; cases hu
  | step hs hstep ih =>
    cases hstep with
    | register name cost effects unlocked prerequisites unlocks repeatable maxp hreg =>
      intro u hu
      rcases List.mem_append.mp hu with h1 | h2
      · exact ih u h1
      · rw [List.mem_singleton] at h2
        subst h2
        intro _
        rfl
    | purchaseStep name => exact rnp_purchase _ _ name ih
    | unlockStep name =>
      exact rnp_updateUpgrade _ name _ (fun x hx => hx) ih
    | ledgerStep rm => exact ih

/-- Claim C9: a prerequisite that names a registered repeatable upgrade is
never satisfied in any state reachable through registration, purchases,
unlocks and ledger changes: `purchase` never sets the `purchased` flag of
a repeatable upgrade (it only increments `times_purchased`), and
`is_purchased` — the check `can_purchase` applies to each prerequisite —
reads only that flag, so `can_purchase` of the dependent upgrade is false
no matter how often the prerequisite was bought or what the ledger holds. -/
theorem C9_repeatable_prereq_blocks (s : List Upgrade × Ledger)
    (h : UReachable s) (uname rname : String) (u ru : Upgrade)
    (hu : getUpgrade s.1 uname = some u)
    (hpre : rname ∈ u.prerequisites)
    (hru : getUpgrade s.1 rname = some ru)
    (hrep : ru.repeatable = true) :
    can_purchase s.1 s.2 uname = false := by
  have hinv := rnp_invariant s h
  have hrumem : ru ∈ s.1 := List.mem_of_find?_eq_some hru
  have hrup : ru.purchased = false := hinv ru hrumem hrep
  have hisp : is_purchased s.1 rname = false := by
    simp [is_purchased, hru, hrup]
  have hall : u.prerequisites.all (fun q => is_purchased s.1 q) = false := by
    rw [List.all_eq_false]
    exact ⟨rname, hpre, by simp [hisp]⟩
  unfold can_purchase
  rw [hu]
  by_cases hul : u.unlocked = true
  · by_cases hcm : can_purchase_more u = true
    · simp [hul, hcm, hall]
    · rw [Bool.not_eq_true] at hcm
      simp [hcm]
  · rw [Bool.not_eq_true] at hul
    simp [hul]

theorem C9_repeatable_prereq_blocks_witness :
    can_purchase
      (purchase
        [⟨"rep", [], false, [], true, [], [], true, 0, none⟩,
         ⟨"child", [], false, [], true, ["rep"], [], false, 0, none⟩]
        [] "rep").1.1
      (purchase
        [⟨"rep", [], false, [], true, [], [], true, 0, none⟩,
         ⟨"child", [], false, [], true, ["rep"], [], false, 0, none⟩]
        [] "rep").1.2 "child" = false := by
  have hreach : UReachable
      (purchase
        (([] ++ [⟨"rep", [], false, [], true, [], [], true, 0, none⟩]) ++
          [⟨"child", [], false, [], true, ["rep"], [], false, 0, none⟩])
        [] "rep").1 := by
    refine UReachable.step (UReachable.step (UReachable.step (UReachable.init [])
      (UStep.register ([], []) "rep" [] [] true [] [] true none (by decide)))
      (UStep.register ([] ++ [⟨"rep", [], false, [], true, [], [], true, 0, none⟩], [])
        "child" [] [] true ["rep"] [] false none (by decide))) ?_
    exact UStep.purchaseStep
      ((([] ++ [⟨"rep", [], false, [], true, [], [], true, 0, none⟩]) ++
        [⟨"child", [], false, [], true, ["rep"], [], false, 0, none⟩]), []) "rep"
  exact C9_repeatable_prereq_blocks _ hreach "child" "rep"
    ⟨"child", [], false, [], true, ["rep"], [], false, 0, none⟩
    ⟨"rep", [], false, [], true, [], [], true, 1, none⟩
    (by decide) (by decide) (by decide) rfl

/-- Lookup with default `0` in a totals mapping (`dict.get(name, 0)`). -/
def lookupTotal (m : CostMap) (n : String) : ℚ :=
  match m.find? (fun p => p.1 == n) with
  | some p => p.2
  | none => 0

/-- `BuildingManager._update_production_rates`: republish the NET rate
(production − consumption) via `set_generation_rate` for every registered
resource named in either totals mapping. -/
def bUpdateProductionRates (bm : List Building) (rm : Ledger) : Ledger :=
  let prod := bTotalProduction bm
  let cons := bTotalConsumption bm
  ((prod.map Prod.fst ++ cons.map Prod.fst).dedup).foldl
    (fun acc n =>
      if has_resource acc n then
        set_generation_rate acc n (lookupTotal prod n - lookupTotal cons n)
      else acc) rm

/-- `BuildingManager.to_dict`. -/
def bToDict (bm : List Building) : List (String × Building) :=
  bm.map (fun b => (b.name, b))

/-- `BuildingManager.from_dict`: clear, rebuild, republish net rates. -/
def bFromDict (data : List (String × Building)) (rm : Ledger) :
    List Building × Ledger :=
  let bm := data.map Prod.snd
  (bm, bUpdateProductionRates bm rm)

/-- `ResourceManager.to_dict`. -/
def rToDict (rm : Ledger) : List (String × Resource) :=
  rm.map (fun r => (r.name, r))

/-- `ResourceManager.from_dict`: clear and rebuild. -/
def rFromDict (data : List (String × Resource)) : Ledger :=
  data.map Prod.snd

/-- `UpgradeManager.to_dict`. -/
def gToDict (mgr : List Upgrade) : List (String × Upgrade) :=
  mgr.map (fun u => (u.name, u))

/-- `UpgradeManager.from_dict`: clear and rebuild. -/
def gFromDict (data : List (String × Upgrade)) : List Upgrade :=
  data.map Prod.snd

/-- Simulation metadata (`GameState.metadata`); the wall-clock timestamps
`created_at` and `last_saved` are not modelled. -/
structure Metadata where
  version : String
  total_playtime : ℚ
  tick_count : ℕ
  deriving Repr, DecidableEq

/-- The free-form `StateManager` auxiliary data, kept abstract. -/
abbrev StateData := List (String × String)

/-- The `GameState` coordinator: one ledger, two entity registries, one
upgrade graph, auxiliary state and metadata. -/
structure GameState where
  state : StateData
  resources : Ledger
  buildings : List Building
  units : List GameUnit
  upgrades : List Upgrade
  metadata : Metadata
  deriving Repr, DecidableEq

/-- One parsed save record.  Each section is optional so that records
missing a required key can be expressed; `save_game` writes all of them. -/
structure SaveData where
  metadata : Option Metadata
  state : Option StateData
  resources : Option (List (String × Resource))
  buildings : Option (List (String × Building))
  units : Option (List (String × GameUnit))
  upgrades : Option (List (String × Upgrade))
  deriving Repr, DecidableEq

/-- `GameState.save_game` with the file I/O abstracted away: serialize
metadata, auxiliary state, and all four subsystems. -/
def save_game (gs : GameState) : SaveData :=
  { metadata := some gs.metadata
    state := some gs.state
    resources := some (rToDict gs.resources)
    buildings := some (bToDict gs.buildings)
    units := some (uToDict gs.units)
    upgrades := some (gToDict gs.upgrades) }

/-- `GameState._validate_save_data`: all five required keys present. -/
def validate_save_data (sd : SaveData) : Bool :=
  sd.metadata.isSome && sd.resources.isSome && sd.buildings.isSome &&
    sd.units.isSome && sd.upgrades.isSome

/-- `GameState.load_game` applied to a record that exists and parsed:
validate, then replace each present section wholesale; the building and
unit loaders republish rates onto the just-loaded ledger. -/
def load_game (gs : GameState) (sd : SaveData) : GameState × Bool :=
  if !(validate_save_data sd) then (gs, false)
  else
    let md := match sd.metadata with | some m => m | none => gs.metadata
    let st := match sd.state with | some s2 => s2 | none => gs.state
    let rm0 := match sd.resources with | some d => rFromDict d | none => gs.resources
    let bmr := match sd.buildings with
      | some d => bFromDict d rm0
      | none => (gs.buildings, rm0)
    let umr := match sd.units with
      | some d => uFromDict d bmr.2
      | none => (gs.units, bmr.2)
    let ug := match sd.upgrades with | some d => gFromDict d | none => gs.upgrades
    ({ state := st, resources := umr.2, buildings := bmr.1, units := umr.1,
       upgrades := ug, metadata := md }, true)

/-- A freshly constructed `GameState()`: empty managers. -/
def freshGameState : GameState :=
  { state := [], resources := [], buildings := [], units := [],
    upgrades := [], metadata := ⟨"1.0.0", 0, 0⟩ }

theorem sndToDict_r (rm : Ledger) : (rToDict rm).map Prod.snd = rm := by
  unfold rToDict
  rw [List.map_map]
  exact List.map_id rm

theorem sndToDict_b (bm : List Building) : (bToDict bm).map Prod.snd = bm := by
  unfold bToDict
  rw [List.map_map]
  exact List.map_id bm

theorem sndToDict_u (um : List GameUnit) : (uToDict um).map Prod.snd = um := by
  unfold uToDict
  rw [List.map_map]
  exact List.map_id um

theorem sndToDict_g (mgr : List Upgrade) : (gToDict mgr).map Prod.snd = mgr := by
  unfold gToDict
  rw [List.map_map]
  exact List.map_id mgr

theorem get_amount_updateResource (rm : Ledger) (n m : String) (f : Resource → Resource)
    (hf : ∀ x, (f x).name = x.name) (ha : ∀ x, (f x).amount = x.amount) :
    get_amount (updateResource rm n f) m = get_amount rm m := by
  unfold get_amount
  rw [getResource_updateResource rm n m f hf]
  by_cases h : m = n
  · simp only [h, if_true]
    cases getResource rm n <;> simp [ha]
  · simp [h]

theorem get_amount_set_generation_rate (rm : Ledger) (n : String) (q : ℚ) (m : String) :
    get_amount (set_generation_rate rm n q) m = get_amount rm m := by
  cases h : getResource rm n with
  | none => simp [set_generation_rate, h]
  | some r =>
    simp only [set_generation_rate, h]
    exact get_amount_updateResource rm n m
      (fun x => { x with generation_rate := max 0 q }) (fun x => rfl) (fun x => rfl)

theorem get_amount_modify_gen (rm : Ledger) (n : String) (q : ℚ) (m : String) :
    get_amount (modify_generation_rate rm n q) m = get_amount rm m := by
  cases h : getResource rm n with
  | none => simp [modify_generation_rate, h]
  | some r =>
    simp only [modify_generation_rate, h]
    exact get_amount_set_generation_rate rm n _ m

theorem get_amount_bRates (bm : List Building) (rm : Ledger) (m : String) :
    get_amount (bUpdateProductionRates bm rm) m = get_amount rm m := by
  unfold bUpdateProductionRates
  have haux : ∀ (l : List String) (acc : Ledger),
      get_amount (l.foldl (fun acc n =>
        if has_resource acc n then
          set_generation_rate acc n
            (lookupTotal (bTotalProduction bm) n - lookupTotal (bTotalConsumption bm) n)
        else acc) acc) m = get_amount acc m := by
    intro l
    induction l with
    | nil => exact fun acc => rfl
    | cons n tl ih =>
      intro acc
      rw [List.foldl_cons, ih]
      by_cases hh : has_resource acc n = true
      · simp only [hh, if_true]
        exact get_amount_set_generation_rate acc n _ m
      · rw [Bool.not_eq_true] at hh
        simp [hh]
  exact haux _ rm

theorem get_amount_uRates (um : List GameUnit) (rm : Ledger) (m : String) :
    get_amount (uUpdateProductionRates um rm) m = get_amount rm m := by
  unfold uUpdateProductionRates
  have haux : ∀ (l : CostMap) (acc : Ledger),
      get_amount (l.foldl (fun acc p =>
        if has_resource acc p.1 then modify_generation_rate acc p.1 p.2 else acc)
        acc) m = get_amount acc m := by
    intro l
    induction l with
    | nil => exact fun acc => rfl
    | cons p tl ih =>
      intro acc
      rw [List.foldl_cons, ih]
      by_cases hh : has_resource acc p.1 = true
      · simp only [hh, if_true]
        exact get_amount_modify_gen acc p.1 p.2 m
      · rw [Bool.not_eq_true] at hh
        simp [hh]
  exact haux _ rm

/-- `save_game` followed by `load_game` into a fresh coordinator:
everything is rebuilt from the record; only the ledger's generation
rates are additionally touched by the two rate republishers. -/
theorem load_save (gs : GameState) :
    load_game freshGameState (save_game gs) =
      ({ state := gs.state,
         resources := uUpdateProductionRates gs.units
           (bUpdateProductionRates gs.buildings gs.resources),
         buildings := gs.buildings, units := gs.units, upgrades := gs.upgrades,
         metadata := gs.metadata }, true) := by
  show (if _ then _ else _) = _
  rw [if_neg (by simp [save_game, validate_save_data])]
  simp only [save_game, uFromDict, bFromDict, rFromDict, gFromDict,
    sndToDict_r, sndToDict_b, sndToDict_u, sndToDict_g]

/-- `BuildingManager.get_building`. -/
def getBuilding (bm : List Building) (name : String) : Option Building :=
  bm.find? (fun b => b.name == name)

/-- `BuildingManager.get_count`: owned count, `0` if unknown. -/
def bGet_count (bm : List Building) (name : String) : ℕ :=
  match getBuilding bm name with
  | some b => b.count
  | none => 0

/-- `UnitManager.get_count`: owned count, `0` if unknown. -/
def uGet_count (um : List GameUnit) (name : String) : ℕ :=
  match getUnit um name with
  | some u => u.count
  | none => 0

/-- Claim C4: `save_game` followed by `load_game` of the saved record into
a freshly constructed `GameState` succeeds and reproduces every resource
amount, every building count, every unit count, and the purchased-upgrade
state (both the `purchased` flags and `times_purchased`) of the original
at save time.  (File writing and JSON encoding are abstracted: the saved
record is handed to the loader as parsed data.) -/
theorem C4_save_load_round_trip (gs : GameState) :
    (load_game freshGameState (save_game gs)).2 = true
    ∧ (∀ n, get_amount (load_game freshGameState (save_game gs)).1.resources n =
        get_amount gs.resources n)
    ∧ (∀ n, bGet_count (load_game freshGameState (save_game gs)).1.buildings n =
        bGet_count gs.buildings n)
    ∧ (∀ n, uGet_count (load_game freshGameState (save_game gs)).1.units n =
        uGet_count gs.units n)
    ∧ (∀ n, (getUpgrade (load_game freshGameState (save_game gs)).1.upgrades n).map
          Upgrade.purchased = (getUpgrade gs.upgrades n).map Upgrade.purchased)
    ∧ (∀ n, (getUpgrade (load_game freshGameState (save_game gs)).1.upgrades n).map
          Upgrade.times_purchased =
        (getUpgrade gs.upgrades n).map Upgrade.times_purchased) := by
  rw [load_save]
  refine ⟨rfl, ?_, fun n => rfl, fun n => rfl, fun n => rfl, fun n => rfl⟩
  intro n
  show get_amount (uUpdateProductionRates gs.units
    (bUpdateProductionRates gs.buildings gs.resources)) n = get_amount gs.resources n
  rw [get_amount_uRates, get_amount_bRates]

/-- Claim C8: `load_game` of a record that exists and parses but lacks one
of the five required top-level sections (metadata, resources,
structures/buildings, units, upgrades) fails validation and leaves the
whole coordinator untouched; a record with all five sections passes
validation and the load returns success. -/
theorem C8_load_validation (gs : GameState) (sd : SaveData) :
    (¬ (sd.metadata.isSome = true ∧ sd.resources.isSome = true ∧
        sd.buildings.isSome = true ∧ sd.units.isSome = true ∧
        sd.upgrades.isSome = true) →
      validate_save_data sd = false ∧ load_game gs sd = (gs, false))
    ∧ ((sd.metadata.isSome = true ∧ sd.resources.isSome = true ∧
        sd.buildings.isSome = true ∧ sd.units.isSome = true ∧
        sd.upgrades.isSome = true) →
      validate_save_data sd = true ∧ (load_game gs sd).2 = true) := by
  constructor
  · intro hmiss
    have hv : validate_save_data sd = false := by
      rw [← Bool.not_eq_true]
      intro hb
      apply hmiss
      unfold validate_save_data at hb
      simp only [Bool.and_eq_true] at hb
      exact ⟨hb.1.1.1.1, hb.1.1.1.2, hb.1.1.2, hb.1.2, hb.2⟩
    refine ⟨hv, ?_⟩
    unfold load_game
    rw [if_pos (by simp [hv])]
  · intro hall
    have hv : validate_save_data sd = true := by
      unfold validate_save_data
      simp [hall.1, hall.2.1, hall.2.2.1, hall.2.2.2.1, hall.2.2.2.2]
    refine ⟨hv, ?_⟩
    unfold load_game
    rw [if_neg (by simp [hv])]

theorem C8_load_validation_witness :
    (¬ ((some (⟨"1.0.0", 0, 0⟩ : Metadata)).isSome = true ∧
        (some ([] : List (String × Resource))).isSome = true ∧
        (some ([] : List (String × Building))).isSome = true ∧
        (none : Option (List (String × GameUnit))).isSome = true ∧
        (some ([] : List (String × Upgrade))).isSome = true))
    ∧ validate_save_data
        ⟨some ⟨"1.0.0", 0, 0⟩, some [], some [], some [], none, some []⟩ = false
    ∧ load_game freshGameState
        ⟨some ⟨"1.0.0", 0, 0⟩, some [], some [], some [], none, some []⟩ =
        (freshGameState, false)
    ∧ validate_save_data
        ⟨some ⟨"1.0.0", 0, 0⟩, some [], some [], some [], some [], some []⟩ = true
    ∧ (load_game freshGameState
        ⟨some ⟨"1.0.0", 0, 0⟩, some [], some [], some [], some [], some []⟩).2 = true := by
  have h1 := (C8_load_validation freshGameState
    ⟨some ⟨"1.0.0", 0, 0⟩, some [], some [], some [], none, some []⟩).1
    (by simp)
  have h2 := (C8_load_validation freshGameState
    ⟨some ⟨"1.0.0", 0, 0⟩, some [], some [], some [], some [], some []⟩).2
    (by simp)
  exact ⟨by simp, h1.1, h1.2, h2.1, h2.2⟩

end IncrGame
